import Mathlib

/-!
# Verification of `yt_series_download.py`

A shallow embedding of the core of the repository `yt-series-download`
(single source file `yt_series_download.py`) together with proofs about it.

Modelling conventions:
* Strings are Lean `String`s; character-level work is done on `String.data`
  (a `List Char`).  Python's Unicode whitespace / digit classes are modelled
  over their ASCII fragment (the only one the program's inputs exercise).
* The filesystem is a finite association list from `(directory, filename)`
  keys to entries.  A `stat` syscall may fail (Python `OSError`); the three
  distinct `stat` call sites of the program (the locator's existence probes,
  the size read in `needs_redownload`, and the pre-deletion existence
  re-check in `main`) are given independent outcomes in an `Entry`, so that
  transient filesystem errors between call sites are expressible.  A steady
  filesystem simply uses the same outcome three times.
* The external fetch collaborator (`yt_dlp`) is an oracle: it may raise
  (an `Except.error` with a message) and may transform the filesystem
  arbitrarily.
* Fallible code returns `Except`/`Option`; all definitions are executable.
-/

namespace YtDl

/-! ## Character helpers (ASCII fragments of Python's `str.strip`, `\s`, `\d`) -/

/-- ASCII whitespace, the fragment of Python's `str.isspace`/regex `\s`
exercised here: space, tab, newline, carriage return, vertical tab, form feed. -/
def pyIsSpace (c : Char) : Bool :=
  c = ' ' ∨ c = '\t' ∨ c = '\n' ∨ c = '\r' ∨ c = '\x0b' ∨ c = '\x0c'

/-- ASCII decimal digit, the fragment of Python's regex `\d` exercised here. -/
def isDig (c : Char) : Bool :=
  48 ≤ c.toNat ∧ c.toNat ≤ 57

/-- Numeric value of an ASCII digit character (`int` on a one-digit string). -/
def digitVal (c : Char) : Nat :=
  c.toNat - 48

/-- Python `str.strip()`: drop leading and trailing whitespace. -/
def stripL (l : List Char) : List Char :=
  ((l.dropWhile pyIsSpace).reverse.dropWhile pyIsSpace).reverse

/-! ## Naming policy: `season_from_episode` (source lines 41–50)

The full-match regex is `^S(\d{1,2})E\d{1,2}$` (IGNORECASE) applied to the
stripped code; the fallback is `re.search(r"[sS]\s*(\d{1,2})", ep_code)` on
the original string.  Both are embedded as first-order matchers; the greedy
`{1,2}` repetitions are deterministic here because a digit can never also
match the following `E` / end-of-string / whitespace context. -/

/-- Tail of the full-match regex: `\d{1,2}$` (season value `n` passed through). -/
def matchTail (n : Nat) : List Char → Option Nat
  | [] => none
  | d1 :: rest =>
    if isDig d1 then
      match rest with
      | [] => some n
      | d2 :: rest2 => if isDig d2 ∧ rest2 = [] then some n else none
    else none

/-- Middle of the full-match regex: `E\d{1,2}$`, case-insensitive `E`. -/
def matchE (n : Nat) : List Char → Option Nat
  | [] => none
  | e :: rest => if e = 'E' ∨ e = 'e' then matchTail n rest else none

/-- Group of the full-match regex: `(\d{1,2})E\d{1,2}$`; returns the season value. -/
def matchDigitsE : List Char → Option Nat
  | [] => none
  | d1 :: rest =>
    if isDig d1 then
      match rest with
      | [] => none
      | d2 :: rest2 =>
        if isDig d2 then matchE (10 * digitVal d1 + digitVal d2) rest2
        else matchE (digitVal d1) rest
    else none

/-- The full-match regex `^S(\d{1,2})E\d{1,2}$` with `re.IGNORECASE`. -/
def fullMatchL : List Char → Option Nat
  | [] => none
  | c :: rest => if c = 'S' ∨ c = 's' then matchDigitsE rest else none

/-- After an `s`/`S`: `\s*(\d{1,2})` (greedy whitespace, then 1–2 digits). -/
def searchSDigits (l : List Char) : Option Nat :=
  match l.dropWhile pyIsSpace with
  | [] => none
  | d1 :: rest =>
    if isDig d1 then
      match rest with
      | [] => some (digitVal d1)
      | d2 :: _ => if isDig d2 then some (10 * digitVal d1 + digitVal d2) else some (digitVal d1)
    else none

/-- The fallback `re.search(r"[sS]\s*(\d{1,2})", ·)`: scan left to right for a
position where the pattern matches. -/
def searchSL : List Char → Option Nat
  | [] => none
  | c :: rest =>
    if c = 's' ∨ c = 'S' then
      match searchSDigits rest with
      | some n => some n
      | none => searchSL rest
    else searchSL rest

/-- Python `f"{n:02d}"`: zero-pad to (at least) two digits. -/
def pad2 (n : Nat) : String :=
  if n < 10 then "0" ++ Nat.repr n else Nat.repr n

/-- `season_from_episode` (source lines 41–50): extract the season as two
digits from codes like `S01E02`; `"00"` for empty or unparseable codes. -/
def season_from_episode (s : String) : String :=
  if s.data = [] then "00"
  else
    match fullMatchL (stripL s.data) with
    | some n => pad2 n
    | none =>
      match searchSL s.data with
      | some n => pad2 n
      | none => "00"

/-! ## Naming policy: `sanitize_filename` (source lines 53–58) -/

/-- The reserved character class of `re.sub(r'[\\/*?:"<>|]', "_", ·)`. -/
def reservedChar (c : Char) : Bool :=
  c = '\\' ∨ c = '/' ∨ c = '*' ∨ c = '?' ∨ c = ':' ∨ c = '"' ∨ c = '<' ∨ c = '>' ∨ c = '|'

/-- Replace every reserved character by `_` (a character class substitution
acts independently on each character). -/
def replaceReserved (l : List Char) : List Char :=
  l.map (fun c => if reservedChar c then '_' else c)

/-- `re.sub(r"\s+", " ", ·)`: replace each maximal whitespace run by one space. -/
def collapseWsL : List Char → List Char
  | [] => []
  | [c] => if pyIsSpace c then [' '] else [c]
  | a :: b :: rest =>
    if pyIsSpace a then
      if pyIsSpace b then collapseWsL (b :: rest)
      else ' ' :: collapseWsL (b :: rest)
    else a :: collapseWsL (b :: rest)

/-- `sanitize_filename` (source lines 53–58): strip, replace reserved
characters with `_`, collapse whitespace runs to single spaces. -/
def sanitize_filename (s : String) : String :=
  ⟨collapseWsL (replaceReserved (stripL s.data))⟩

/-! ## `pathlib` name manipulation

`Path.with_suffix` and `Path.suffix` act on the final path component (the
filename).  The suffix of a name is the part from its last dot, provided
that dot is neither the first nor the last character; `with_suffix`
*replaces* an existing suffix and appends otherwise. -/

/-- `pathlib.PurePath.suffix` of a filename: `[]` when the name has no
suffix, otherwise `'.' :: tail` for the part after (and including) the last
dot.  A leading dot (hidden file) or trailing dot yields no suffix. -/
def pySuffixL (name : List Char) : List Char :=
  let after := name.reverse.takeWhile (fun c => c ≠ '.')
  if after.length + 1 < name.length ∧ after ≠ [] then '.' :: after.reverse else []

/-- `pathlib.PurePath.with_suffix` on a filename: replace the existing
suffix (if any) by `ext`, else append `ext`. -/
def pyWithSuffixL (name ext : List Char) : List Char :=
  name.take (name.length - (pySuffixL name).length) ++ ext

/-- String wrapper for `pyWithSuffixL`. -/
def pyWithSuffix (name ext : String) : String :=
  ⟨pyWithSuffixL name.data ext.data⟩

/-- Python `name.endswith(".part")`. -/
def endsWithPart (name : String) : Bool :=
  ".part".data.reverse.isPrefixOf name.data.reverse

/-! ## `glob` pattern matching

`Path.glob` matches a single-component pattern against directory entry
names with `fnmatch`-style wildcards, case-sensitively and in enumeration
order (pathlib does not special-case hidden files).  The program's only
pattern is `base_no_ext.name + ".*"`.  Wildcards `*` and `?` are modelled
with their `fnmatch` semantics; the `[...]` character-class syntax is not
modelled (`[` is treated as a literal), so theorems touching the fallback
restrict to names free of `*`, `?` and `[` — `sanitize_filename` already
replaces `*` and `?` by `_`. -/

/-- `fnmatch`-style matching of a whole name against a pattern made of
literals, `*` (any sequence: the translated regex `(?s:.*)`, matched here
by trying every suffix) and `?` (any single character). -/
def fnmatchL : List Char → List Char → Bool
  | [], m => m.isEmpty
  | p :: ps, m =>
    if p = '*' then
      m.tails.any (fun s => fnmatchL ps s)
    else
      match m with
      | [] => false
      | c :: ms => if p = '?' ∨ p = c then fnmatchL ps ms else false

/-! ## Filesystem model -/

/-- One directory entry.  The three `Option Nat` fields are the outcomes of
the `stat` syscall at the program's three distinct call sites (`none`
models an `OSError`, swallowed by `Path.exists`/`Path.is_file` and caught
around `stat().st_size`):
* `statLoc` — the locator's `p.exists()` / `p.is_file()` probes;
* `statSize` — the `existing.stat().st_size` read in `needs_redownload`;
* `statPre` — the `existing_path.exists()` re-check before deletion in `main`.
A steady (unchanging) filesystem has all three equal; distinct values model
transient errors between the call sites. -/
structure Entry where
  isDir : Bool
  statLoc : Option Nat
  statSize : Option Nat
  statPre : Option Nat
deriving DecidableEq

/-- A regular file with steady stat outcome `sz` at every call site. -/
def steadyFile (sz : Nat) : Entry :=
  ⟨false, some sz, some sz, some sz⟩

/-- A directory entry as created by `mkdir` (stat succeeds everywhere). -/
def freshDir : Entry :=
  ⟨true, some 4096, some 4096, some 4096⟩

/-- The filesystem: a finite association list from `(directory, filename)`
keys to entries, in enumeration order. -/
def FSys : Type := List ((String × String) × Entry)

instance : DecidableEq FSys := by
  unfold FSys
  infer_instance

/-- First entry stored under `(dir, name)`. -/
def fsGet : FSys → String → String → Option Entry
  | [], _, _ => none
  | (k, e) :: rest, dir, name => if k = (dir, name) then some e else fsGet rest dir name

/-- `Path.exists()` at the locator call site: the stat succeeds (for files
and directories alike — no regular-file check). -/
def pathExists (fs : FSys) (dir name : String) : Bool :=
  match fsGet fs dir name with
  | some e => e.statLoc.isSome
  | none => false

/-- `Path.is_file()` at the locator call site. -/
def isFileAt (fs : FSys) (dir name : String) : Bool :=
  match fsGet fs dir name with
  | some e => e.statLoc.isSome && !e.isDir
  | none => false

/-- `existing.stat().st_size` in `needs_redownload` (`none` = `OSError`). -/
def sizeRead (fs : FSys) (dir name : String) : Option Nat :=
  match fsGet fs dir name with
  | some e => e.statSize
  | none => none

/-- `existing_path.exists()` in `main`, just before the deletion attempt. -/
def preDeleteExists (fs : FSys) (dir name : String) : Bool :=
  match fsGet fs dir name with
  | some e => e.statPre.isSome
  | none => false

/-- The names (with entries) enumerated by scanning directory `dir`. -/
def listing (fs : FSys) (dir : String) : List (String × Entry) :=
  fs.filterMap (fun kv => if kv.1.1 = dir then some (kv.1.2, kv.2) else none)

/-- `Path.unlink()`: remove the entry stored under `(dir, name)`. -/
def fsRemove (fs : FSys) (dir name : String) : FSys :=
  fs.filter (fun kv => decide (kv.1 ≠ (dir, name)))

/-! ## Existing-artifact locator: `find_existing_file` (source lines 73–87) -/

/-- The fixed ordered extension list probed first (source line 79). -/
def probeExtensions : List String :=
  [".mkv", ".mp4", ".webm", ".m4v", ".mov"]

/-- First phase of `find_existing_file`: for each extension in order, form
`base_no_ext.with_suffix(ext)` and return it if it exists (and its name
does not end with `".part"`). -/
def probePhase (fs : FSys) (dir name : String) : Option String :=
  probeExtensions.findSome? (fun ext =>
    if pathExists fs dir (pyWithSuffix name ext)
        ∧ endsWithPart (pyWithSuffix name ext) = false
    then some (pyWithSuffix name ext) else none)

/-- Second phase of `find_existing_file`: iterate
`base_no_ext.parent.glob(base_no_ext.name + ".*")` in enumeration order and
return the first match that does not end with `".part"` and is a regular
file. -/
def globPhase (fs : FSys) (dir name : String) : Option String :=
  (((listing fs dir).map Prod.fst).filter
      (fun nm => fnmatchL (name ++ ".*").data nm.data)).find?
    (fun nm => !endsWithPart nm && isFileAt fs dir nm)

/-- `find_existing_file` (source lines 73–87): probe the fixed extensions,
then fall back to the glob scan; `none` when nothing qualifies. -/
def find_existing_file (fs : FSys) (dir name : String) : Option String :=
  match probePhase fs dir name with
  | some p => some p
  | none => globPhase fs dir name

/-! ## Reconciliation decision engine: `needs_redownload` (source lines 90–110) -/

/-- `REDOWNLOAD_SIZE_BYTES = 10 * 1024 * 1024` (source line 29). -/
def REDOWNLOAD_SIZE_BYTES : Nat := 10 * 1024 * 1024

/-- `needs_redownload` (source lines 90–110): `(redownload?, located artifact)`.
The unused local `part` of source line 102 has no effect and is omitted. -/
def needs_redownload (fs : FSys) (dir name : String) : Bool × Option String :=
  match find_existing_file fs dir name with
  | none => (true, none)
  | some existing =>
    match sizeRead fs dir existing with
    | none => (true, some existing)
    | some size =>
      if REDOWNLOAD_SIZE_BYTES ≤ size then (false, some existing)
      else (true, some existing)

/-! ## Fetch orchestrator: the row loop of `main` (source lines 153–188)

Catalog ingestion (`read_rows`, argument parsing, path resolution) is
upstream of the claims: the orchestrator is modelled on the list of already
ingested rows.  `mkdir(parents=True, exist_ok=True)` raises only when a
non-directory (or a directory whose stat fails) already occupies the path;
such an exception is uncaught in `main`, so the model propagates it as an
`Except.error`.  `download_one` always receives `overwrite=True`. -/

/-- One usable catalog row `(episode, title, url)` as yielded by `read_rows`. -/
structure Row where
  ep : String
  title : String
  url : String
deriving DecidableEq

/-- What happened to one row. -/
inductive Outcome where
  /-- `needs_redownload` said no: the skip message was printed, nothing else. -/
  | skip (existingName : String)
  /-- the fetch collaborator was invoked and returned normally -/
  | fetchOk
  /-- the fetch collaborator raised; the error was caught and reported -/
  | fetchFail (msg : String)
deriving DecidableEq

/-- Per-row bookkeeping: the row's identifying fields, its outcome, and
whether `existing_path.unlink()` was attempted. -/
structure RowResult where
  ep : String
  title : String
  outcome : Outcome
  unlinkTried : Bool
deriving DecidableEq

/-- Observable side effects of a run, in program order. -/
inductive Ev where
  /-- `base_out.mkdir(parents=True, exist_ok=True)` (source line 146) -/
  | mkdirBase (dir : String)
  /-- `season_dir.mkdir(parents=True, exist_ok=True)` (source line 156) -/
  | mkdirSeason (base sdName : String)
  /-- the `✓ Skipping` print (source line 170) -/
  | skipMsg (name : String)
  /-- `existing_path.unlink()` attempted (source line 176) -/
  | unlinkTry (dir name : String)
  /-- the `Removed small file` print (source line 177) -/
  | removedMsg (name : String)
  /-- the `Warning: could not remove` print (source line 179) -/
  | removeWarn (dir name : String)
  /-- the `=== Downloading` print (source line 181) -/
  | downloading (ep title : String)
  /-- `download_one(url, outtmpl, fmt, overwrite=True)` invoked (source line 184) -/
  | fetchCall (url outtmpl : String)
  /-- the `Error downloading` report (source line 186) -/
  | fetchErr (ep title msg : String)
deriving DecidableEq

/-- Run configuration: the resolved base output directory (as parent
directory plus name, so its own creation is expressible), the format
string, and the external collaborators as oracles. -/
structure Config where
  baseParent : String
  baseName : String
  fmt : String
  /-- does `download_one url outtmpl fmt` raise, and with which message? -/
  fetchResult : String → String → String → Except String Unit
  /-- arbitrary filesystem effect of the fetch collaborator -/
  fetchEffect : String → String → String → FSys → FSys
  /-- does `unlink` on this path succeed? -/
  unlinkOk : String → String → Bool

/-- `base_out`: the base output directory path. -/
def Config.baseOutPath (cfg : Config) : String :=
  cfg.baseParent ++ "/" ++ cfg.baseName

/-- `f"Season {season}"` for a row. -/
def rowSeasonDirName (r : Row) : String :=
  "Season " ++ season_from_episode r.ep

/-- `season_dir = base_out / f"Season {season}"` as a directory path. -/
def rowDir (cfg : Config) (r : Row) : String :=
  cfg.baseOutPath ++ "/" ++ rowSeasonDirName r

/-- `filename_no_ext = f"{safe_ep} - {safe_title}"`. -/
def rowFname (r : Row) : String :=
  sanitize_filename r.ep ++ " - " ++ sanitize_filename r.title

/-- `outtmpl = str(base_no_ext) + ".%(ext)s"`. -/
def rowOuttmpl (cfg : Config) (r : Row) : String :=
  rowDir cfg r ++ "/" ++ rowFname r ++ ".%(ext)s"

/-- `mkdir(parents=True, exist_ok=True)` at `(parent, name)`: no-op when a
healthy directory is already there, insertion when absent, uncaught
`FileExistsError` when a non-directory (or stat-broken entry) is there. -/
def mkdirP (fs : FSys) (parent name : String) : Except String FSys :=
  match fsGet fs parent name with
  | some e => if e.isDir && e.statLoc.isSome then .ok fs else .error "FileExistsError"
  | none => .ok (((parent, name), freshDir) :: fs)

/-- The deletion block of `main` (source lines 173–179): attempt
`existing_path.unlink()` when an artifact was located and its pre-deletion
existence re-check succeeds.  Returns the filesystem, the emitted events,
and whether an unlink was attempted. -/
def deleteStep (cfg : Config) (fs1 : FSys) (sdir : String) :
    Option String → FSys × List Ev × Bool
  | none => (fs1, [], false)
  | some exName =>
    if preDeleteExists fs1 sdir exName then
      if cfg.unlinkOk sdir exName then
        (fsRemove fs1 sdir exName,
         [Ev.unlinkTry sdir exName, Ev.removedMsg exName], true)
      else
        (fs1, [Ev.unlinkTry sdir exName, Ev.removeWarn sdir exName], true)
    else (fs1, [], false)

/-- The body of one iteration of the row loop of `main` (source lines
158–186), after the season-directory `mkdir`. -/
def processRowLoop (cfg : Config) (fs1 : FSys) (r : Row) :
    FSys × RowResult × List Ev :=
  match needs_redownload fs1 (rowDir cfg r) (rowFname r) with
  | (false, exOpt) =>
    (fs1, ⟨r.ep, r.title, .skip (exOpt.getD ""), false⟩,
      [Ev.mkdirSeason cfg.baseOutPath (rowSeasonDirName r), Ev.skipMsg (exOpt.getD "")])
  | (true, exOpt) =>
    match deleteStep cfg fs1 (rowDir cfg r) exOpt with
    | (fs2, evs2, tried) =>
      match cfg.fetchResult r.url (rowOuttmpl cfg r) cfg.fmt with
      | .ok _ =>
        (cfg.fetchEffect r.url (rowOuttmpl cfg r) cfg.fmt fs2,
          ⟨r.ep, r.title, .fetchOk, tried⟩,
          Ev.mkdirSeason cfg.baseOutPath (rowSeasonDirName r) :: evs2
            ++ [Ev.downloading r.ep r.title, Ev.fetchCall r.url (rowOuttmpl cfg r)])
      | .error m =>
        (cfg.fetchEffect r.url (rowOuttmpl cfg r) cfg.fmt fs2,
          ⟨r.ep, r.title, .fetchFail m, tried⟩,
          Ev.mkdirSeason cfg.baseOutPath (rowSeasonDirName r) :: evs2
            ++ [Ev.downloading r.ep r.title, Ev.fetchCall r.url (rowOuttmpl cfg r),
              Ev.fetchErr r.ep r.title m])

/-- One iteration of the row loop of `main` (source lines 153–186): the
season-directory `mkdir` (whose `FileExistsError` would be uncaught),
then the loop body. -/
def processRow (cfg : Config) (fs : FSys) (r : Row) :
    Except String (FSys × RowResult × List Ev) :=
  match mkdirP fs cfg.baseOutPath (rowSeasonDirName r) with
  | .error m => .error m
  | .ok fs1 => .ok (processRowLoop cfg fs1 r)

/-- The whole row loop, in catalog order. -/
def processRows (cfg : Config) (fs : FSys) :
    List Row → Except String (FSys × List RowResult × List Ev)
  | [] => .ok (fs, [], [])
  | r :: rest =>
    match processRow cfg fs r with
    | .error m => .error m
    | .ok (fs1, res, evs) =>
      match processRows cfg fs1 rest with
      | .error m => .error m
      | .ok (fs2, results, evs2) => .ok (fs2, res :: results, evs ++ evs2)

/-- `main` (source lines 138–188) after argument parsing: exit code 1 when
the catalog file is missing, otherwise create `base_out`, exit code 2 when
no usable rows were ingested, otherwise run the row loop and finish with
exit code 0 (per-row fetch failures included). -/
def mainModel (cfg : Config) (csvExists : Bool) (rows : List Row) (fs : FSys) :
    Except String (Nat × FSys × List RowResult × List Ev) :=
  if csvExists then
    match mkdirP fs cfg.baseParent cfg.baseName with
    | .error m => .error m
    | .ok fs1 =>
      if rows.isEmpty then .ok (2, fs1, [], [Ev.mkdirBase cfg.baseOutPath])
      else
        match processRows cfg fs1 rows with
        | .error m => .error m
        | .ok (fs2, results, evs) =>
          .ok (0, fs2, results, Ev.mkdirBase cfg.baseOutPath :: evs)
  else .ok (1, fs, [], [])

/-! ## Decidable hypothesis predicates and result extractors -/

/-- The season-directory `mkdir` of this row cannot raise on `fs`: the slot
is free or already a healthy directory. -/
def mkdirSafeB (cfg : Config) (fs : FSys) (r : Row) : Bool :=
  match fsGet fs cfg.baseOutPath (rowSeasonDirName r) with
  | some e => e.isDir && e.statLoc.isSome
  | none => true

/-- The base-directory `mkdir` of `main` cannot raise on `fs`. -/
def baseMkdirSafeB (cfg : Config) (fs : FSys) : Bool :=
  match fsGet fs cfg.baseParent cfg.baseName with
  | some e => e.isDir && e.statLoc.isSome
  | none => true

/-- This row already has a located artifact whose size reads successfully
at or above the threshold. -/
def rowGoodB (cfg : Config) (fs : FSys) (r : Row) : Bool :=
  match find_existing_file fs (rowDir cfg r) (rowFname r) with
  | some p =>
    match sizeRead fs (rowDir cfg r) p with
    | some n => REDOWNLOAD_SIZE_BYTES ≤ n
    | none => false
  | none => false

/-- The `RowResult` of a per-row run, when it did not crash. -/
def resultOf? : Except String (FSys × RowResult × List Ev) → Option RowResult
  | .ok (_, res, _) => some res
  | .error _ => none

/-! ## Spec-side definitions used to compare against the code -/

/-- The first locator phase as claim C4 words it: check existence of
exactly `target_stem + extension` for each extension in order, returning
the first such path that exists.  (The code instead probes
`with_suffix(ext)`, which replaces an existing suffix.) -/
def probeSpecC4 (fs : FSys) (dir name : String) : Option String :=
  probeExtensions.findSome? (fun ext =>
    if pathExists fs dir (name ++ ext) then some (name ++ ext) else none)

/-- The stem's filename is free of the glob metacharacters `*`, `?`, `[`
(the domain on which the embedded `fnmatchL` is faithful to `fnmatch`). -/
def noGlobMeta (name : String) : Bool :=
  name.data.all (fun c => c ≠ '*' && c ≠ '?' && c ≠ '[')

/-! ## Concrete instances used by witnesses and counterexamples -/

/-- A run configuration whose fetch collaborator raises `"boom"` exactly on
the URL `"bad"`, leaves the filesystem unchanged, and whose unlinks succeed. -/
def cfgW : Config :=
  { baseParent := "b", baseName := "out", fmt := "best",
    fetchResult := fun u _ _ => if u = "bad" then .error "boom" else .ok (),
    fetchEffect := fun _ _ _ f => f,
    unlinkOk := fun _ _ => true }

/-- A representative catalog row. -/
def rowW : Row := ⟨"S01E01", "Pilot", "u"⟩

/-- The same episode with the failing URL. -/
def rowBad : Row := ⟨"S01E01", "Pilot", "bad"⟩

/-- The directory `rowW`'s artifact lives in (`= rowDir cfgW rowW`). -/
def artDir : String := "b/out/Season 01"

/-- The artifact name the first probe of `rowW` hits (`= rowFname rowW ++ ".mkv"`). -/
def artName : String := "S01E01 - Pilot.mkv"

/-- A 20 MB healthy artifact for `rowW`. -/
def fsBigW : FSys := [((artDir, artName), steadyFile 20000000)]

/-- An artifact of exactly `10485760` bytes. -/
def fsThr : FSys := [((artDir, artName), steadyFile 10485760)]

/-- An artifact of `10485759` bytes. -/
def fsThr1 : FSys := [((artDir, artName), steadyFile 10485759)]

/-- A transient filesystem: the locator's stat and the pre-deletion re-check
succeed, but the size read in between raises. -/
def fsTransW : FSys :=
  [((artDir, artName), ⟨false, some 999, none, some 999⟩)]

/-- A persistent error: only the locator's stat succeeds; both later stats raise. -/
def fsPersW : FSys :=
  [((artDir, artName), ⟨false, some 999, none, none⟩)]

/-- For C4: a stem whose final component carries the suffix `".0"`. -/
def stemDotted : String := "Show v2.0"

/-- For C4: both `Show v2.mkv` (the path `with_suffix` actually probes) and
`Show v2.0.mkv` (the path the claim says is probed) exist. -/
def fsDotted : FSys :=
  [(("d", "Show v2.mkv"), steadyFile 20000000),
   (("d", "Show v2.0.mkv"), steadyFile 30000000)]

/-- For C5: a directory named like a container file. -/
def fsDirMkv : FSys := [(("d", "x.mkv"), freshDir)]

/-- For C6: a regular file whose name begins with the stem but continues
without a dot. -/
def fsNoDot : FSys := [(("d", "S01E01 - Pilotx.mkv"), steadyFile 20000000)]

/-- For C6 (amended): a fallback hit with an unusual extension. -/
def fsWeirdExt : FSys := [(("d", "S01E01 - Pilot.weird"), steadyFile 20000000)]

/-! ## Helper lemmas: list scanners respect pointwise-equal functions -/

theorem findSome?_congr {α β : Type} (f g : α → Option β) (l : List α)
    (h : ∀ a, f a = g a) : l.findSome? f = l.findSome? g := by
  induction l with
  | nil => rfl
  | cons a t ih => simp [List.findSome?, h a, ih]

theorem find?_congr {α : Type} (p q : α → Bool) (l : List α)
    (h : ∀ a, p a = q a) : l.find? p = l.find? q := by
  induction l with
  | nil => rfl
  | cons a t ih => simp [List.find?, h a, ih]

/-! ## Helper lemmas: path strings

A season directory path `base ++ "/" ++ sd` is never the base path itself,
so creating season directories (keys under the base path) can never change
a lookup inside a season directory. -/

theorem self_ne_append (a b : String) (h : 0 < b.length) : a ≠ a ++ b := by
  intro he
  have hl := congrArg String.length he
  rw [String.length_append] at hl
  omega

theorem rowDir_ne_baseOutPath (cfg : Config) (r : Row) :
    rowDir cfg r ≠ cfg.baseOutPath := by
  intro he
  have h : rowDir cfg r = cfg.baseOutPath ++ ("/" ++ rowSeasonDirName r) := by
    simp [rowDir, String.append_assoc]
  rw [h] at he
  have hlen : 0 < ("/" ++ rowSeasonDirName r).length := by
    rw [String.length_append]
    have h1 : "/".length = 1 := rfl
    omega
  exact self_ne_append _ _ hlen he.symm

/-! ## Helper lemmas: filesystem lookups under an insert at another directory -/

theorem fsGet_insert_ne (fs : FSys) (b sd : String) (e : Entry) (d n : String)
    (h : d ≠ b) : fsGet (((b, sd), e) :: fs) d n = fsGet fs d n := by
  show (if ((b, sd) = (d, n)) then some e else fsGet fs d n) = fsGet fs d n
  rw [if_neg]
  intro hEq
  exact h (congrArg Prod.fst hEq).symm

theorem listing_insert_ne (fs : FSys) (b sd : String) (e : Entry) (d : String)
    (h : d ≠ b) : listing (((b, sd), e) :: fs) d = listing fs d := by
  simp only [listing, List.filterMap_cons]
  rw [if_neg]
  exact fun hbd => h hbd.symm

theorem pathExists_insert_ne (fs : FSys) (b sd : String) (e : Entry) (d n : String)
    (h : d ≠ b) : pathExists (((b, sd), e) :: fs) d n = pathExists fs d n := by
  simp [pathExists, fsGet_insert_ne fs b sd e d n h]

theorem isFileAt_insert_ne (fs : FSys) (b sd : String) (e : Entry) (d n : String)
    (h : d ≠ b) : isFileAt (((b, sd), e) :: fs) d n = isFileAt fs d n := by
  simp [isFileAt, fsGet_insert_ne fs b sd e d n h]

theorem sizeRead_insert_ne (fs : FSys) (b sd : String) (e : Entry) (d n : String)
    (h : d ≠ b) : sizeRead (((b, sd), e) :: fs) d n = sizeRead fs d n := by
  simp [sizeRead, fsGet_insert_ne fs b sd e d n h]

theorem preDeleteExists_insert_ne (fs : FSys) (b sd : String) (e : Entry) (d n : String)
    (h : d ≠ b) : preDeleteExists (((b, sd), e) :: fs) d n = preDeleteExists fs d n := by
  simp [preDeleteExists, fsGet_insert_ne fs b sd e d n h]

theorem probePhase_insert_ne (fs : FSys) (b sd : String) (e : Entry) (d n : String)
    (h : d ≠ b) : probePhase (((b, sd), e) :: fs) d n = probePhase fs d n := by
  unfold probePhase
  exact findSome?_congr _ _ _ (fun ext => by
    simp only [pathExists_insert_ne fs b sd e d _ h])

theorem globPhase_insert_ne (fs : FSys) (b sd : String) (e : Entry) (d n : String)
    (h : d ≠ b) : globPhase (((b, sd), e) :: fs) d n = globPhase fs d n := by
  unfold globPhase
  rw [listing_insert_ne fs b sd e d h]
  exact find?_congr _ _ _ (fun nm => by
    rw [isFileAt_insert_ne fs b sd e d nm h])

theorem find_existing_file_insert_ne (fs : FSys) (b sd : String) (e : Entry)
    (d n : String) (h : d ≠ b) :
    find_existing_file (((b, sd), e) :: fs) d n = find_existing_file fs d n := by
  unfold find_existing_file
  rw [probePhase_insert_ne fs b sd e d n h, globPhase_insert_ne fs b sd e d n h]

theorem needs_redownload_insert_ne (fs : FSys) (b sd : String) (e : Entry)
    (d n : String) (h : d ≠ b) :
    needs_redownload (((b, sd), e) :: fs) d n = needs_redownload fs d n := by
  unfold needs_redownload
  rw [find_existing_file_insert_ne fs b sd e d n h]
  cases find_existing_file fs d n with
  | none => rfl
  | some p => simp only [sizeRead_insert_ne fs b sd e d p h]

/-! ## Helper lemmas: filesystem lookups after `unlink` -/

theorem fsGet_remove_other (fs : FSys) (d n b sd : String)
    (h : (b, sd) ≠ (d, n)) : fsGet (fsRemove fs d n) b sd = fsGet fs b sd := by
  induction fs with
  | nil => rfl
  | cons kv rest ih =>
    rcases kv with ⟨k, e⟩
    by_cases hk : k = (d, n)
    · have hne : k ≠ (b, sd) := by rw [hk]; exact fun he => h he.symm
      have h1 : fsRemove (((k, e) : (String × String) × Entry) :: rest) d n
          = fsRemove rest d n := by
        simp [fsRemove, List.filter_cons, hk]
      rw [h1, ih]
      show fsGet rest b sd = if k = (b, sd) then some e else fsGet rest b sd
      rw [if_neg hne]
    · have h1 : fsRemove (((k, e) : (String × String) × Entry) :: rest) d n
          = (k, e) :: fsRemove rest d n := by
        simp [fsRemove, List.filter_cons, hk]
      rw [h1]
      show (if k = (b, sd) then some e else fsGet (fsRemove rest d n) b sd)
          = if k = (b, sd) then some e else fsGet rest b sd
      rw [ih]

theorem fsGet_remove_self (fs : FSys) (d n : String) :
    fsGet (fsRemove fs d n) d n = none := by
  induction fs with
  | nil => rfl
  | cons kv rest ih =>
    rcases kv with ⟨k, e⟩
    by_cases hk : k = (d, n)
    · have h1 : fsRemove (((k, e) : (String × String) × Entry) :: rest) d n
          = fsRemove rest d n := by
        simp [fsRemove, List.filter_cons, hk]
      rw [h1]
      exact ih
    · have h1 : fsRemove (((k, e) : (String × String) × Entry) :: rest) d n
          = (k, e) :: fsRemove rest d n := by
        simp [fsRemove, List.filter_cons, hk]
      rw [h1]
      show (if k = (d, n) then some e else fsGet (fsRemove rest d n) d n) = none
      rw [if_neg hk]
      exact ih

/-- `mkdir(exist_ok=True)` under the safety predicate: it succeeds, and the
resulting filesystem is either unchanged or extended by a fresh directory
entry under the base path. -/
theorem mkdirP_of_safe (fs : FSys) (b sd : String)
    (h : (match fsGet fs b sd with
          | some e => e.isDir && e.statLoc.isSome
          | none => true) = true) :
    mkdirP fs b sd = .ok fs ∨ mkdirP fs b sd = .ok (((b, sd), freshDir) :: fs) := by
  unfold mkdirP
  cases hg : fsGet fs b sd with
  | none => right; rfl
  | some e =>
    left
    rw [hg] at h
    rw [Bool.and_eq_true] at h
    obtain ⟨h1, h2⟩ := h
    rw [Option.isSome_iff_ne_none] at h2
    simp [hg, h1, h2]

/-! ## Helper lemmas: reducing `needs_redownload` and `processRow` -/

theorem needs_redownload_skip (fs : FSys) (d nm p : String) (n : Nat)
    (hfind : find_existing_file fs d nm = some p)
    (hsize : sizeRead fs d p = some n) (hn : REDOWNLOAD_SIZE_BYTES ≤ n) :
    needs_redownload fs d nm = (false, some p) := by
  unfold needs_redownload
  rw [hfind]
  simp only [hsize, if_pos hn]

theorem needs_redownload_small (fs : FSys) (d nm p : String) (n : Nat)
    (hfind : find_existing_file fs d nm = some p)
    (hsize : sizeRead fs d p = some n) (hn : n < REDOWNLOAD_SIZE_BYTES) :
    needs_redownload fs d nm = (true, some p) := by
  unfold needs_redownload
  rw [hfind]
  simp only [hsize, if_neg (Nat.not_le_of_lt hn)]

theorem needs_redownload_oserror (fs : FSys) (d nm p : String)
    (hfind : find_existing_file fs d nm = some p)
    (hsize : sizeRead fs d p = none) :
    needs_redownload fs d nm = (true, some p) := by
  unfold needs_redownload
  rw [hfind]
  simp only [hsize]

/-- When the season-directory `mkdir` is safe, `processRow` runs the loop
body on a filesystem whose season-directory lookups agree with `fs`. -/
theorem processRow_of_safe (cfg : Config) (fs : FSys) (r : Row)
    (hs : mkdirSafeB cfg fs r = true) :
    ∃ fs1, processRow cfg fs r = .ok (processRowLoop cfg fs1 r) ∧
      needs_redownload fs1 (rowDir cfg r) (rowFname r)
        = needs_redownload fs (rowDir cfg r) (rowFname r) ∧
      (∀ nm, preDeleteExists fs1 (rowDir cfg r) nm
        = preDeleteExists fs (rowDir cfg r) nm) ∧
      (fs1 = fs ∨ fs1 = ((cfg.baseOutPath, rowSeasonDirName r), freshDir) :: fs) := by
  have hd := rowDir_ne_baseOutPath cfg r
  have hm := mkdirP_of_safe fs cfg.baseOutPath (rowSeasonDirName r) hs
  rcases hm with hm | hm
  · exact ⟨fs, by simp [processRow, hm], rfl, fun _ => rfl, Or.inl rfl⟩
  · refine ⟨((cfg.baseOutPath, rowSeasonDirName r), freshDir) :: fs, ?_, ?_, ?_, Or.inr rfl⟩
    · simp [processRow, hm]
    · exact needs_redownload_insert_ne fs cfg.baseOutPath _ freshDir _ _ hd
    · exact fun nm => preDeleteExists_insert_ne fs cfg.baseOutPath _ freshDir _ nm hd

/-! ## Claim C3 -/

/-- **C3.** The size threshold is exact at `10485760` bytes: with a located
artifact whose size reads as exactly `10485760`, the row is skipped (no
deletion attempt, no fetch call — the trace is just the season `mkdir` and
the skip message); with `10485759` (and the artifact still passing the
pre-deletion existence check), the artifact is deleted and then the fetch
is invoked: the trace shows `unlinkTry` before `fetchCall`. -/
theorem c3_threshold_boundary (cfg : Config) (fs : FSys) (r : Row) (p : String)
    (hs : mkdirSafeB cfg fs r = true)
    (hfind : find_existing_file fs (rowDir cfg r) (rowFname r) = some p) :
    (sizeRead fs (rowDir cfg r) p = some 10485760 →
      ∃ fs1, processRow cfg fs r = .ok (fs1, ⟨r.ep, r.title, .skip p, false⟩,
        [Ev.mkdirSeason cfg.baseOutPath (rowSeasonDirName r), Ev.skipMsg p])) ∧
    (sizeRead fs (rowDir cfg r) p = some 10485759 →
     preDeleteExists fs (rowDir cfg r) p = true →
      ∃ fs' res ev3 evtail, processRow cfg fs r = .ok (fs', res,
        [Ev.mkdirSeason cfg.baseOutPath (rowSeasonDirName r),
         Ev.unlinkTry (rowDir cfg r) p, ev3,
         Ev.downloading r.ep r.title, Ev.fetchCall r.url (rowOuttmpl cfg r)]
          ++ evtail) ∧
        res.unlinkTried = true ∧
        (res.outcome = .fetchOk ∨ ∃ m, res.outcome = .fetchFail m)) := by
  obtain ⟨fs1, hrun, hneeds, hpre, -⟩ := processRow_of_safe cfg fs r hs
  constructor
  · intro hsize
    have hn : needs_redownload fs1 (rowDir cfg r) (rowFname r) = (false, some p) := by
      rw [hneeds]
      exact needs_redownload_skip fs _ _ p 10485760 hfind hsize (by decide)
    refine ⟨fs1, ?_⟩
    rw [hrun]
    unfold processRowLoop
    rw [hn]
    rfl
  · intro hsize hpde
    have hn : needs_redownload fs1 (rowDir cfg r) (rowFname r) = (true, some p) := by
      rw [hneeds]
      exact needs_redownload_small fs _ _ p 10485759 hfind hsize (by decide)
    have hpde1 : preDeleteExists fs1 (rowDir cfg r) p = true := by rw [hpre]; exact hpde
    rw [hrun]
    unfold processRowLoop
    rw [hn]
    unfold deleteStep
    dsimp only
    rw [if_pos hpde1]
    by_cases hu : cfg.unlinkOk (rowDir cfg r) p = true
    · rw [if_pos hu]
      cases hf : cfg.fetchResult r.url (rowOuttmpl cfg r) cfg.fmt with
      | ok u =>
        refine ⟨cfg.fetchEffect r.url (rowOuttmpl cfg r) cfg.fmt
            (fsRemove fs1 (rowDir cfg r) p),
          ⟨r.ep, r.title, .fetchOk, true⟩, Ev.removedMsg p, [], ?_, rfl, Or.inl rfl⟩
        simp
      | error m =>
        refine ⟨cfg.fetchEffect r.url (rowOuttmpl cfg r) cfg.fmt
            (fsRemove fs1 (rowDir cfg r) p),
          ⟨r.ep, r.title, .fetchFail m, true⟩, Ev.removedMsg p,
          [Ev.fetchErr r.ep r.title m], ?_, rfl, Or.inr ⟨m, rfl⟩⟩
        simp
    · rw [if_neg hu]
      cases hf : cfg.fetchResult r.url (rowOuttmpl cfg r) cfg.fmt with
      | ok u =>
        refine ⟨cfg.fetchEffect r.url (rowOuttmpl cfg r) cfg.fmt fs1,
          ⟨r.ep, r.title, .fetchOk, true⟩, Ev.removeWarn (rowDir cfg r) p, [],
          ?_, rfl, Or.inl rfl⟩
        simp
      | error m =>
        refine ⟨cfg.fetchEffect r.url (rowOuttmpl cfg r) cfg.fmt fs1,
          ⟨r.ep, r.title, .fetchFail m, true⟩, Ev.removeWarn (rowDir cfg r) p,
          [Ev.fetchErr r.ep r.title m], ?_, rfl, Or.inr ⟨m, rfl⟩⟩
        simp

/-- Witness for C3 at a concrete input: an artifact of exactly `10485760`
bytes is skipped, and one of `10485759` bytes is deleted and refetched. -/
theorem c3_threshold_boundary_witness :
    (∃ fs1, processRow cfgW fsThr rowW = .ok (fs1,
        ⟨rowW.ep, rowW.title, .skip artName, false⟩,
        [Ev.mkdirSeason cfgW.baseOutPath (rowSeasonDirName rowW), Ev.skipMsg artName])) ∧
    (∃ fs' res ev3 evtail, processRow cfgW fsThr1 rowW = .ok (fs', res,
        [Ev.mkdirSeason cfgW.baseOutPath (rowSeasonDirName rowW),
         Ev.unlinkTry (rowDir cfgW rowW) artName, ev3,
         Ev.downloading rowW.ep rowW.title,
         Ev.fetchCall rowW.url (rowOuttmpl cfgW rowW)] ++ evtail) ∧
      res.unlinkTried = true ∧
      (res.outcome = .fetchOk ∨ ∃ m, res.outcome = .fetchFail m)) :=
  ⟨(c3_threshold_boundary cfgW fsThr rowW artName (by decide) (by decide)).1 (by decide),
   (c3_threshold_boundary cfgW fsThr1 rowW artName (by decide) (by decide)).2
     (by decide) (by decide)⟩

/-! ## Claim C1 -/

/-- **C1 (amended).** For every located artifact whose size read raises, the
row is treated as needing redownload (the fetch proceeds).  Deletion,
however, is guarded only by a *fresh existence re-check* on the artifact:
the unlink is attempted exactly when that re-check succeeds.  So a
persistent filesystem error yields fetch-without-deletion, but when the
transient error has cleared by deletion time the artifact *is* deleted even
though its size was never successfully read. -/
theorem c1_unreadable_size_redownload (cfg : Config) (fs : FSys) (r : Row) (p : String)
    (hs : mkdirSafeB cfg fs r = true)
    (hfind : find_existing_file fs (rowDir cfg r) (rowFname r) = some p)
    (hsize : sizeRead fs (rowDir cfg r) p = none) :
    ∃ fs' res evs, processRow cfg fs r = .ok (fs', res, evs) ∧
      (res.outcome = .fetchOk ∨ ∃ m, res.outcome = .fetchFail m) ∧
      res.unlinkTried = preDeleteExists fs (rowDir cfg r) p := by
  obtain ⟨fs1, hrun, hneeds, hpre, -⟩ := processRow_of_safe cfg fs r hs
  have hn : needs_redownload fs1 (rowDir cfg r) (rowFname r) = (true, some p) := by
    rw [hneeds]
    exact needs_redownload_oserror fs _ _ p hfind hsize
  rw [hrun]
  unfold processRowLoop
  rw [hn]
  unfold deleteStep
  dsimp only
  rw [← hpre p]
  by_cases hpde : preDeleteExists fs1 (rowDir cfg r) p = true
  · rw [if_pos hpde, hpde]
    by_cases hu : cfg.unlinkOk (rowDir cfg r) p = true
    · rw [if_pos hu]
      cases cfg.fetchResult r.url (rowOuttmpl cfg r) cfg.fmt with
      | ok u => exact ⟨_, _, _, rfl, Or.inl rfl, rfl⟩
      | error m => exact ⟨_, _, _, rfl, Or.inr ⟨m, rfl⟩, rfl⟩
    · rw [if_neg hu]
      cases cfg.fetchResult r.url (rowOuttmpl cfg r) cfg.fmt with
      | ok u => exact ⟨_, _, _, rfl, Or.inl rfl, rfl⟩
      | error m => exact ⟨_, _, _, rfl, Or.inr ⟨m, rfl⟩, rfl⟩
  · rw [if_neg hpde]
    rw [Bool.not_eq_true] at hpde
    rw [hpde]
    cases cfg.fetchResult r.url (rowOuttmpl cfg r) cfg.fmt with
    | ok u => exact ⟨_, _, _, rfl, Or.inl rfl, rfl⟩
    | error m => exact ⟨_, _, _, rfl, Or.inr ⟨m, rfl⟩, rfl⟩

/-- Witness for C1 (amended) at a concrete input: with a persistent stat
error (the pre-deletion re-check also fails) the row is refetched and no
unlink is attempted. -/
theorem c1_unreadable_size_redownload_witness :
    ∃ fs' res evs, processRow cfgW fsPersW rowW = .ok (fs', res, evs) ∧
      (res.outcome = .fetchOk ∨ ∃ m, res.outcome = .fetchFail m) ∧
      res.unlinkTried = preDeleteExists fsPersW (rowDir cfgW rowW) artName :=
  c1_unreadable_size_redownload cfgW fsPersW rowW artName (by decide) (by decide)
    (by decide)

/-- Counterexample to C1 as stated: on `fsTransW` the artifact's size read
raises (`sizeRead = none`), yet the pre-deletion existence re-check
succeeds, so `main` *does* attempt (and here performs) the deletion — the
unlink is attempted for an artifact whose size was never successfully read. -/
theorem c1_counterexample :
    sizeRead fsTransW (rowDir cfgW rowW) artName = none ∧
    resultOf? (processRow cfgW fsTransW rowW) =
      some ⟨"S01E01", "Pilot", .fetchOk, true⟩ := by
  decide

/-! ## Helper lemmas: probe names never end in `".part"` -/

theorem isPrefixOf_false_of_head_ne (a b : Char) (as bs : List Char) (h : a ≠ b) :
    (a :: as).isPrefixOf (b :: bs) = false := by
  simp [List.isPrefixOf, h]

theorem string_append_mk (s t : String) : s ++ t = ⟨s.data ++ t.data⟩ := rfl

/-- A name obtained by appending an extension whose last character is not
`'t'` cannot end in `".part"`. -/
theorem endsWithPart_mk_append (l e : List Char) (c : Char) (ts : List Char)
    (he : e.reverse = c :: ts) (hc : c ≠ 't') :
    endsWithPart ⟨l ++ e⟩ = false := by
  unfold endsWithPart
  have h1 : (String.mk (l ++ e)).data = l ++ e := rfl
  rw [h1, List.reverse_append, he]
  have h2 : ".part".data.reverse = 't' :: ['r', 'a', 'p', '.'] := rfl
  rw [h2]
  exact isPrefixOf_false_of_head_ne _ _ _ _ (fun hh => hc hh.symm)

theorem endsWithPart_withSuffix_ext (name ext : String)
    (hext : ext ∈ probeExtensions) : endsWithPart (pyWithSuffix name ext) = false := by
  have hrepr : pyWithSuffix name ext
      = ⟨name.data.take (name.data.length - (pySuffixL name.data).length) ++ ext.data⟩ :=
    rfl
  rw [hrepr]
  fin_cases hext
  · exact endsWithPart_mk_append _ _ 'v' _ rfl (by decide)
  · exact endsWithPart_mk_append _ _ '4' _ rfl (by decide)
  · exact endsWithPart_mk_append _ _ 'm' _ rfl (by decide)
  · exact endsWithPart_mk_append _ _ 'v' _ rfl (by decide)
  · exact endsWithPart_mk_append _ _ 'v' _ rfl (by decide)

theorem endsWithPart_append_ext (name ext : String)
    (hext : ext ∈ probeExtensions) : endsWithPart (name ++ ext) = false := by
  rw [string_append_mk]
  fin_cases hext
  · exact endsWithPart_mk_append _ _ 'v' _ rfl (by decide)
  · exact endsWithPart_mk_append _ _ '4' _ rfl (by decide)
  · exact endsWithPart_mk_append _ _ 'm' _ rfl (by decide)
  · exact endsWithPart_mk_append _ _ 'v' _ rfl (by decide)
  · exact endsWithPart_mk_append _ _ 'v' _ rfl (by decide)

theorem findSome?_congr_mem {α β : Type} (f g : α → Option β) (l : List α)
    (h : ∀ a ∈ l, f a = g a) : l.findSome? f = l.findSome? g := by
  induction l with
  | nil => rfl
  | cons a t ih =>
    simp only [List.findSome?]
    rw [h a (List.mem_cons_self a t)]
    cases g a with
    | some b => rfl
    | none => exact ih (fun x hx => h x (List.mem_cons_of_mem a hx))

/-! ## Claim C4 -/

/-- **C4 (amended).** The locator's first phase checks existence of
`with_suffix(target_stem, ext)` for each extension in the fixed order,
returning the first hit; this equals `target_stem + ext` exactly when the
stem's final path component has no `pathlib` suffix.  For such stems the
first phase coincides with the claim's description (`probeSpecC4`); for
stems whose final component carries a dot-suffix, `with_suffix` replaces
that suffix instead of appending. -/
theorem pyWithSuffix_no_suffix (name ext : String) (h : pySuffixL name.data = []) :
    pyWithSuffix name ext = name ++ ext := by
  unfold pyWithSuffix pyWithSuffixL
  rw [h, string_append_mk]
  congr 1
  simp

theorem c4_probe_appends_iff_no_suffix (fs : FSys) (dir name : String)
    (h : pySuffixL name.data = []) :
    probePhase fs dir name = probeSpecC4 fs dir name := by
  unfold probePhase probeSpecC4
  apply findSome?_congr_mem
  intro ext hext
  rw [pyWithSuffix_no_suffix name ext h, endsWithPart_append_ext name ext hext]
  simp

/-- Witness for C4 (amended) at a concrete input: for the dot-free stem of
`rowW`, the code's probe phase coincides with the claim's description. -/
theorem c4_probe_appends_iff_no_suffix_witness :
    probePhase fsBigW artDir "S01E01 - Pilot"
      = probeSpecC4 fsBigW artDir "S01E01 - Pilot" :=
  c4_probe_appends_iff_no_suffix fsBigW artDir "S01E01 - Pilot" (by decide)

/-- Counterexample to C4 as stated: for the stem `"Show v2.0"` (final
component carries the suffix `".0"`), the claim's first phase would return
`"Show v2.0.mkv"`, but the code probes `with_suffix` paths and returns
`"Show v2.mkv"` instead. -/
theorem c4_counterexample :
    probePhase fsDotted "d" stemDotted = some "Show v2.mkv" ∧
    probeSpecC4 fsDotted "d" stemDotted = some "Show v2.0.mkv" ∧
    find_existing_file fsDotted "d" stemDotted = some "Show v2.mkv" := by
  decide

/-! ## Claim C5 -/

/-- **C5 (amended).** No path the locator returns ever ends in `".part"`.
A path found by the glob fallback is additionally a regular file, but a
path found by the extension probes is only known to *exist* — the probe
uses `exists()` with no regular-file check, so it can be a directory. -/
theorem c5_no_part_ever (fs : FSys) (dir name p : String)
    (h : find_existing_file fs dir name = some p) :
    endsWithPart p = false ∧
    (isFileAt fs dir p = true ∨
      ∃ ext ∈ probeExtensions, p = pyWithSuffix name ext ∧ pathExists fs dir p = true) := by
  unfold find_existing_file at h
  cases hp : probePhase fs dir name with
  | some q =>
    rw [hp] at h
    cases h
    obtain ⟨ext, hmem, hf⟩ := List.exists_of_findSome?_eq_some hp
    split at hf
    · rename_i hcond
      cases hf
      exact ⟨hcond.2, Or.inr ⟨ext, hmem, rfl, hcond.1⟩⟩
    · cases hf
  | none =>
    rw [hp] at h
    have hpred := List.find?_some h
    rw [Bool.and_eq_true, Bool.not_eq_true'] at hpred
    exact ⟨hpred.1, Or.inl hpred.2⟩

/-- Witness for C5 (amended) at a concrete input. -/
theorem c5_no_part_ever_witness :
    endsWithPart artName = false ∧
    (isFileAt fsBigW artDir artName = true ∨
      ∃ ext ∈ probeExtensions, artName = pyWithSuffix "S01E01 - Pilot" ext ∧
        pathExists fsBigW artDir artName = true) :=
  c5_no_part_ever fsBigW artDir "S01E01 - Pilot" artName (by decide)

/-- Counterexample to C5 as stated: with a *directory* named `"x.mkv"`, the
locator returns it (the probe only checks existence), so the locator can
return a non-regular-file path. -/
theorem c5_counterexample :
    find_existing_file fsDirMkv "d" "x" = some "x.mkv" ∧
    isFileAt fsDirMkv "d" "x.mkv" = false ∧
    (fsGet fsDirMkv "d" "x.mkv").map Entry.isDir = some true := by
  decide

/-! ## Helper lemmas: `fnmatch` -/

theorem fnmatch_star_any (m : List Char) : fnmatchL ['*'] m = true := by
  have h : fnmatchL ['*'] m = m.tails.any (fun s => fnmatchL [] s) := by
    simp [fnmatchL]
  rw [h, List.any_eq_true]
  exact ⟨[], (List.mem_tails [] m).mpr List.nil_suffix, rfl⟩

theorem fnmatch_lit_prefix (l : List Char) (hl : ∀ c ∈ l, c ≠ '*' ∧ c ≠ '?')
    (p m : List Char) : fnmatchL (l ++ p) (l ++ m) = fnmatchL p m := by
  induction l with
  | nil => rfl
  | cons c t ih =>
    have hc := hl c (List.mem_cons_self c t)
    have hstep : fnmatchL (c :: (t ++ p)) (c :: (t ++ m)) = fnmatchL (t ++ p) (t ++ m) := by
      simp [fnmatchL, hc.1, hc.2]
    simp only [List.cons_append]
    rw [hstep]
    exact ih (fun x hx => hl x (List.mem_cons_of_mem c hx))

/-- A name of the shape `stem ++ "." ++ rest` matches the glob pattern
`stem ++ ".*"` (for metacharacter-free stems). -/
theorem fnmatch_dot_star (name : String) (hmeta : noGlobMeta name = true)
    (rest : List Char) :
    fnmatchL (name ++ ".*").data (name.data ++ ('.' :: rest)) = true := by
  have hdata : (name ++ ".*").data = name.data ++ ['.', '*'] := rfl
  rw [hdata]
  have hl : ∀ c ∈ name.data, c ≠ '*' ∧ c ≠ '?' := by
    intro c hc
    have hx := List.all_eq_true.mp hmeta c hc
    rw [Bool.and_eq_true, Bool.and_eq_true] at hx
    refine ⟨?_, ?_⟩
    · simpa using hx.1.1
    · simpa using hx.1.2
  have h1 : ('.' : Char) :: rest = ['.', '*'].take 1 ++ rest := rfl
  rw [show name.data ++ ('.' :: rest) = name.data ++ ('.' :: rest) from rfl]
  calc fnmatchL (name.data ++ ['.', '*']) (name.data ++ ('.' :: rest))
      = fnmatchL ['.', '*'] ('.' :: rest) :=
        fnmatch_lit_prefix name.data hl ['.', '*'] ('.' :: rest)
    _ = true := by simp [fnmatchL, fnmatch_star_any]

/-! ## Claim C6 -/

/-- **C6 (amended).** When no fixed-extension probe hits and the directory
contains at least one regular file whose name extends the stem's filename
by a dot-separated suffix (`stem ++ "." ++ …`, the shape the glob pattern
`stem + ".*"` requires) and does not end in `".part"` — and the stem is
free of glob metacharacters — the fallback returns some file with exactly
those properties, rather than absence. -/
theorem c6_fallback_returns_some (fs : FSys) (dir name nm : String)
    (hmeta : noGlobMeta name = true)
    (hprobe : probePhase fs dir name = none)
    (hmem : nm ∈ (listing fs dir).map Prod.fst)
    (hdot : (name ++ ".").data.isPrefixOf nm.data = true)
    (hpart : endsWithPart nm = false)
    (hfile : isFileAt fs dir nm = true) :
    ∃ nm', find_existing_file fs dir name = some nm' ∧
      fnmatchL (name ++ ".*").data nm'.data = true ∧
      endsWithPart nm' = false ∧ isFileAt fs dir nm' = true := by
  have hpre : (name ++ ".").data <+: nm.data := List.isPrefixOf_iff_prefix.mp hdot
  obtain ⟨rest, hrest⟩ := hpre
  have hnm : nm.data = name.data ++ ('.' :: rest) := by
    rw [← hrest]
    have hd : (name ++ ".").data = name.data ++ ['.'] := rfl
    rw [hd]
    simp
  have hmatch : fnmatchL (name ++ ".*").data nm.data = true := by
    rw [hnm]
    exact fnmatch_dot_star name hmeta rest
  have hcand : nm ∈ ((listing fs dir).map Prod.fst).filter
      (fun x => fnmatchL (name ++ ".*").data x.data) :=
    List.mem_filter.mpr ⟨hmem, hmatch⟩
  have hsome : ((((listing fs dir).map Prod.fst).filter
      (fun x => fnmatchL (name ++ ".*").data x.data)).find?
      (fun x => !endsWithPart x && isFileAt fs dir x)).isSome := by
    rw [List.find?_isSome]
    exact ⟨nm, hcand, by rw [hpart, hfile]; rfl⟩
  obtain ⟨nm', hnm'⟩ := Option.isSome_iff_exists.mp hsome
  have hpred := List.find?_some hnm'
  rw [Bool.and_eq_true, Bool.not_eq_true'] at hpred
  refine ⟨nm', ?_, ?_, hpred.1, hpred.2⟩
  · unfold find_existing_file
    rw [hprobe]
    unfold globPhase
    exact hnm'
  · have hm := List.mem_of_find?_eq_some hnm'
    exact (List.mem_filter.mp hm).2

/-- Witness for C6 (amended) at a concrete input: only
`"S01E01 - Pilot.weird"` is on disk; no fixed extension matches, and the
fallback returns it. -/
theorem c6_fallback_returns_some_witness :
    ∃ nm', find_existing_file fsWeirdExt "d" "S01E01 - Pilot" = some nm' ∧
      fnmatchL ("S01E01 - Pilot" ++ ".*").data nm'.data = true ∧
      endsWithPart nm' = false ∧ isFileAt fsWeirdExt "d" nm' = true :=
  c6_fallback_returns_some fsWeirdExt "d" "S01E01 - Pilot" "S01E01 - Pilot.weird"
    (by decide) (by decide) (by decide) (by decide) (by decide) (by decide)

/-- Counterexample to C6 as stated: `"S01E01 - Pilotx.mkv"` is a regular
non-`.part` file whose name *begins with* the stem's filename, yet the glob
pattern `stem + ".*"` requires a dot immediately after the stem, so the
locator returns absence. -/
theorem c6_counterexample :
    find_existing_file fsNoDot "d" "S01E01 - Pilot" = none ∧
    "S01E01 - Pilot".data.isPrefixOf "S01E01 - Pilotx.mkv".data = true ∧
    isFileAt fsNoDot "d" "S01E01 - Pilotx.mkv" = true ∧
    endsWithPart "S01E01 - Pilotx.mkv" = false ∧
    "S01E01 - Pilotx.mkv" ∈ (listing fsNoDot "d").map Prod.fst := by
  decide

/-! ## Helper lemmas: the season matchers produce values at most 99 -/

theorem pad2_ok : ∀ n < 100, (pad2 n).data.length = 2 ∧
    ∀ c ∈ (pad2 n).data, isDig c = true := by
  decide

theorem matchTail_eq (n : Nat) (l : List Char) (m : Nat)
    (h : matchTail n l = some m) : m = n := by
  cases l with
  | nil => simp [matchTail] at h
  | cons d1 rest =>
    by_cases hd1 : isDig d1 = true
    · cases rest with
      | nil =>
        simp [matchTail, hd1] at h
        exact h.symm
      | cons d2 rest2 =>
        by_cases hd2 : isDig d2 = true ∧ rest2 = []
        · simp [matchTail, hd1, hd2] at h
          exact h.symm
        · simp [matchTail, hd1, hd2] at h
    · simp [matchTail, hd1] at h

theorem matchE_eq (n : Nat) (l : List Char) (m : Nat)
    (h : matchE n l = some m) : m = n := by
  cases l with
  | nil => simp [matchE] at h
  | cons e rest =>
    by_cases he : e = 'E' ∨ e = 'e'
    · simp only [matchE, if_pos he] at h
      exact matchTail_eq n rest m h
    · simp [matchE, he] at h

theorem digitVal_le_nine (c : Char) (h : isDig c = true) : digitVal c ≤ 9 := by
  unfold isDig at h
  rw [decide_eq_true_eq] at h
  unfold digitVal
  omega

theorem matchDigitsE_le (l : List Char) (m : Nat)
    (h : matchDigitsE l = some m) : m ≤ 99 := by
  cases l with
  | nil => simp [matchDigitsE] at h
  | cons d1 rest =>
    by_cases hd1 : isDig d1 = true
    · cases rest with
      | nil => simp [matchDigitsE, hd1] at h
      | cons d2 rest2 =>
        by_cases hd2 : isDig d2 = true
        · simp only [matchDigitsE, if_pos hd1, if_pos hd2] at h
          have hm := matchE_eq _ _ _ h
          have h1 := digitVal_le_nine d1 hd1
          have h2 := digitVal_le_nine d2 hd2
          omega
        · simp only [matchDigitsE, if_pos hd1, if_neg hd2] at h
          have hm := matchE_eq _ _ _ h
          have h1 := digitVal_le_nine d1 hd1
          omega
    · simp [matchDigitsE, hd1] at h

theorem fullMatchL_le (l : List Char) (m : Nat)
    (h : fullMatchL l = some m) : m ≤ 99 := by
  cases l with
  | nil => simp [fullMatchL] at h
  | cons c rest =>
    by_cases hc : c = 'S' ∨ c = 's'
    · simp only [fullMatchL, if_pos hc] at h
      exact matchDigitsE_le rest m h
    · simp [fullMatchL, hc] at h

theorem searchSDigits_le (l : List Char) (m : Nat)
    (h : searchSDigits l = some m) : m ≤ 99 := by
  unfold searchSDigits at h
  cases hd : l.dropWhile pyIsSpace with
  | nil => rw [hd] at h; cases h
  | cons d1 rest =>
    rw [hd] at h
    by_cases hd1 : isDig d1 = true
    · have h1 := digitVal_le_nine d1 hd1
      cases rest with
      | nil =>
        simp [hd1] at h
        omega
      | cons d2 rest2 =>
        by_cases hd2 : isDig d2 = true
        · have h2 := digitVal_le_nine d2 hd2
          simp [hd1, hd2] at h
          omega
        · simp [hd1, hd2] at h
          omega
    · simp [hd1] at h

theorem searchSL_le (l : List Char) : ∀ m : Nat, searchSL l = some m → m ≤ 99 := by
  induction l with
  | nil => intro m h; simp [searchSL] at h
  | cons c rest ih =>
    intro m h
    unfold searchSL at h
    by_cases hc : c = 's' ∨ c = 'S'
    · rw [if_pos hc] at h
      cases hs : searchSDigits rest with
      | some n =>
        rw [hs] at h
        injection h with h
        have := searchSDigits_le rest n hs
        omega
      | none =>
        rw [hs] at h
        exact ih m h
    · rw [if_neg hc] at h
      exact ih m h

/-! ## Helper lemmas: `sanitize_filename` idempotence

`sanitize` is strip, then reserved-character replacement, then whitespace
collapsing.  Its output is a fixed point of all three stages: it contains no
reserved character, its only whitespace character is `' '` with no two
adjacent, and it neither starts nor ends with whitespace. -/

theorem pyIsSpace_repl (c : Char) :
    pyIsSpace (if reservedChar c then '_' else c) = pyIsSpace c := by
  by_cases hr : reservedChar c = true
  · rw [if_pos hr]
    unfold reservedChar at hr
    rw [decide_eq_true_eq] at hr
    rcases hr with h | h | h | h | h | h | h | h | h <;> subst h <;> decide
  · rw [if_neg hr]

theorem replaceReserved_no_reserved (m : List Char) :
    ∀ c ∈ replaceReserved m, reservedChar c = false := by
  intro c hc
  unfold replaceReserved at hc
  rw [List.mem_map] at hc
  obtain ⟨a, _, rfl⟩ := hc
  by_cases h : reservedChar a = true
  · rw [if_pos h]; decide
  · rw [if_neg h]
    exact Bool.not_eq_true _ ▸ (by simpa using h)

theorem replaceReserved_fixed (m : List Char)
    (h : ∀ c ∈ m, reservedChar c = false) : replaceReserved m = m := by
  induction m with
  | nil => rfl
  | cons a t ih =>
    unfold replaceReserved
    rw [List.map_cons]
    have ha := h a (List.mem_cons_self a t)
    rw [if_neg (by simp [ha])]
    have := ih (fun c hc => h c (List.mem_cons_of_mem a hc))
    unfold replaceReserved at this
    rw [this]

theorem collapseWsL_mem (m : List Char) :
    ∀ c ∈ collapseWsL m, c ∈ m ∨ c = ' ' := by
  induction m with
  | nil => intro c hc; simp [collapseWsL] at hc
  | cons a t ih =>
    intro c hc
    cases t with
    | nil =>
      by_cases ha : pyIsSpace a = true
      · simp [collapseWsL, ha] at hc
        right; exact hc
      · simp [collapseWsL, ha] at hc
        left; simp [hc]
    | cons b t2 =>
      by_cases ha : pyIsSpace a = true
      · by_cases hb : pyIsSpace b = true
        · rw [show collapseWsL (a :: b :: t2) = collapseWsL (b :: t2) by
            simp [collapseWsL, ha, hb]] at hc
          rcases ih c hc with h | h
          · left; exact List.mem_cons_of_mem a h
          · right; exact h
        · rw [show collapseWsL (a :: b :: t2) = ' ' :: collapseWsL (b :: t2) by
            simp [collapseWsL, ha, hb]] at hc
          rcases List.mem_cons.mp hc with h | h
          · right; exact h
          · rcases ih c h with h2 | h2
            · left; exact List.mem_cons_of_mem a h2
            · right; exact h2
      · rw [show collapseWsL (a :: b :: t2) = a :: collapseWsL (b :: t2) by
          simp [collapseWsL, ha]] at hc
        rcases List.mem_cons.mp hc with h | h
        · left; exact h ▸ List.mem_cons_self a (b :: t2)
        · rcases ih c h with h2 | h2
          · left; exact List.mem_cons_of_mem a h2
          · right; exact h2

theorem collapseWsL_space_is_blank (m : List Char) :
    ∀ c ∈ collapseWsL m, pyIsSpace c = true → c = ' ' := by
  induction m with
  | nil => intro c hc; simp [collapseWsL] at hc
  | cons a t ih =>
    intro c hc hsp
    cases t with
    | nil =>
      by_cases ha : pyIsSpace a = true
      · simp [collapseWsL, ha] at hc
        exact hc
      · simp [collapseWsL, ha] at hc
        exact absurd (hc ▸ hsp) ha
    | cons b t2 =>
      by_cases ha : pyIsSpace a = true
      · by_cases hb : pyIsSpace b = true
        · rw [show collapseWsL (a :: b :: t2) = collapseWsL (b :: t2) by
            simp [collapseWsL, ha, hb]] at hc
          exact ih c hc hsp
        · rw [show collapseWsL (a :: b :: t2) = ' ' :: collapseWsL (b :: t2) by
            simp [collapseWsL, ha, hb]] at hc
          rcases List.mem_cons.mp hc with h | h
          · exact h
          · exact ih c h hsp
      · rw [show collapseWsL (a :: b :: t2) = a :: collapseWsL (b :: t2) by
          simp [collapseWsL, ha]] at hc
        rcases List.mem_cons.mp hc with h | h
        · exact absurd (h ▸ hsp) ha
        · exact ih c h hsp

theorem collapseWsL_cons_not_space (b : Char) (t : List Char)
    (hb : pyIsSpace b = false) : ∃ tl, collapseWsL (b :: t) = b :: tl := by
  cases t with
  | nil => exact ⟨[], by simp [collapseWsL, hb]⟩
  | cons c t2 => exact ⟨collapseWsL (c :: t2), by simp [collapseWsL, hb]⟩

theorem collapseWsL_head_space (m : List Char) :
    ∀ c, (collapseWsL m).head? = some c → pyIsSpace c = true →
      ∃ hd t, m = hd :: t ∧ pyIsSpace hd = true := by
  intro c hc hsp
  cases m with
  | nil => simp [collapseWsL] at hc
  | cons a t =>
    refine ⟨a, t, rfl, ?_⟩
    by_cases ha : pyIsSpace a = true
    · exact ha
    · obtain ⟨tl, htl⟩ := collapseWsL_cons_not_space a t (by simpa using ha)
      rw [htl] at hc
      injection hc with hc
      rw [hc]
      exact hsp

theorem collapseWsL_chain (m : List Char) :
    List.Chain' (fun x y => ¬(pyIsSpace x = true ∧ pyIsSpace y = true))
      (collapseWsL m) := by
  induction m with
  | nil => simp [collapseWsL]
  | cons a t ih =>
    cases t with
    | nil =>
      by_cases ha : pyIsSpace a = true <;>
        simp [collapseWsL, ha, List.chain'_singleton]
    | cons b t2 =>
      by_cases ha : pyIsSpace a = true
      · by_cases hb : pyIsSpace b = true
        · rw [show collapseWsL (a :: b :: t2) = collapseWsL (b :: t2) by
            simp [collapseWsL, ha, hb]]
          exact ih
        · rw [show collapseWsL (a :: b :: t2) = ' ' :: collapseWsL (b :: t2) by
            simp [collapseWsL, ha, hb]]
          rw [List.chain'_cons']
          refine ⟨?_, ih⟩
          intro y hy
          obtain ⟨tl, htl⟩ := collapseWsL_cons_not_space b t2 (by simpa using hb)
          rw [htl] at hy
          simp at hy
          intro hcon
          rw [← hy] at hcon
          exact absurd hcon.2 hb
      · rw [show collapseWsL (a :: b :: t2) = a :: collapseWsL (b :: t2) by
          simp [collapseWsL, ha]]
        rw [List.chain'_cons']
        refine ⟨?_, ih⟩
        intro y _
        intro hcon
        exact absurd hcon.1 ha

theorem collapseWsL_fixed (m : List Char) :
    (∀ c ∈ m, pyIsSpace c = true → c = ' ') →
    List.Chain' (fun x y => ¬(pyIsSpace x = true ∧ pyIsSpace y = true)) m →
    collapseWsL m = m := by
  induction m with
  | nil => intro _ _; rfl
  | cons a t ih =>
    intro hsp hch
    cases t with
    | nil =>
      by_cases ha : pyIsSpace a = true
      · have := hsp a (List.mem_cons_self a []) ha
        simp [collapseWsL, ha, this]
      · simp [collapseWsL, ha]
    | cons b t2 =>
      rw [List.chain'_cons] at hch
      have htail := ih (fun c hc h => hsp c (List.mem_cons_of_mem a hc) h) hch.2
      by_cases ha : pyIsSpace a = true
      · have hb : pyIsSpace b = false := by
          by_cases hbt : pyIsSpace b = true
          · exact absurd ⟨ha, hbt⟩ hch.1
          · simpa using hbt
        have ha' : a = ' ' := hsp a (List.mem_cons_self a (b :: t2)) ha
        rw [show collapseWsL (a :: b :: t2) = ' ' :: collapseWsL (b :: t2) by
          simp [collapseWsL, ha, hb]]
        rw [htail, ha']
      · rw [show collapseWsL (a :: b :: t2) = a :: collapseWsL (b :: t2) by
          simp [collapseWsL, ha]]
        rw [htail]

theorem head_dropWhile_false (p : Char → Bool) (z : List Char) :
    ∀ c, (z.dropWhile p).head? = some c → p c = false := by
  induction z with
  | nil => intro c hc; simp at hc
  | cons a t ih =>
    intro c hc
    by_cases ha : p a = true
    · rw [List.dropWhile_cons, if_pos ha] at hc
      exact ih c hc
    · rw [List.dropWhile_cons, if_neg ha] at hc
      injection hc with hc
      rw [← hc]
      simpa using ha

theorem getLast?_dropWhile (p : Char → Bool) (v : List Char)
    (h : v.dropWhile p ≠ []) : (v.dropWhile p).getLast? = v.getLast? := by
  induction v with
  | nil => simp at h
  | cons a t ih =>
    by_cases ha : p a = true
    · rw [List.dropWhile_cons, if_pos ha] at h ⊢
      rw [ih h]
      cases t with
      | nil => simp at h
      | cons b t2 => rw [List.getLast?_cons_cons]
    · rw [List.dropWhile_cons, if_neg ha]

theorem stripL_head_not_space (l : List Char) :
    ∀ c, (stripL l).head? = some c → pyIsSpace c = false := by
  intro c hc
  unfold stripL at hc
  rw [List.head?_reverse] at hc
  by_cases hne : ((l.dropWhile pyIsSpace).reverse.dropWhile pyIsSpace) = []
  · rw [hne] at hc; cases hc
  · rw [getLast?_dropWhile pyIsSpace _ hne, List.getLast?_reverse] at hc
    exact head_dropWhile_false pyIsSpace l c hc

theorem stripL_last_not_space (l : List Char) :
    ∀ c, (stripL l).getLast? = some c → pyIsSpace c = false := by
  intro c hc
  unfold stripL at hc
  rw [List.getLast?_reverse] at hc
  exact head_dropWhile_false pyIsSpace _ c hc

/-- The characters of `sanitize` output are never reserved. -/
theorem sanitize_no_reserved (l : List Char) :
    ∀ c ∈ collapseWsL (replaceReserved (stripL l)), reservedChar c = false := by
  intro c hc
  rcases collapseWsL_mem _ c hc with h | h
  · exact replaceReserved_no_reserved _ c h
  · rw [h]; decide

/-- `sanitize` output does not start with whitespace. -/
theorem sanitize_head_not_space (l : List Char) :
    ∀ c, (collapseWsL (replaceReserved (stripL l))).head? = some c →
      pyIsSpace c = false := by
  intro c hc
  by_cases hsp : pyIsSpace c = true
  · obtain ⟨hd, t, hm, hhd⟩ := collapseWsL_head_space _ c hc hsp
    -- the head of `replaceReserved (stripL l)` would be whitespace
    have hh : (replaceReserved (stripL l)).head? = some hd := by rw [hm]; rfl
    unfold replaceReserved at hh
    rw [List.head?_map] at hh
    cases hs : (stripL l).head? with
    | none => rw [hs] at hh; cases hh
    | some a =>
      rw [hs] at hh
      injection hh with hh
      have ha := stripL_head_not_space l a hs
      rw [← hh, pyIsSpace_repl] at hhd
      rw [ha] at hhd
      cases hhd
  · simpa using hsp

theorem collapseWsL_cons_ne_nil : ∀ (t : List Char) (b : Char),
    collapseWsL (b :: t) ≠ [] := by
  intro t
  induction t with
  | nil =>
    intro b
    by_cases hb : pyIsSpace b = true <;> simp [collapseWsL, hb]
  | cons c t2 ih =>
    intro b
    by_cases hb : pyIsSpace b = true
    · by_cases hc : pyIsSpace c = true
      · rw [show collapseWsL (b :: c :: t2) = collapseWsL (c :: t2) by
          simp [collapseWsL, hb, hc]]
        exact ih c
      · simp [collapseWsL, hb, hc]
    · simp [collapseWsL, hb]

theorem collapseWsL_last_not_space (m : List Char) :
    (∀ c, m.getLast? = some c → pyIsSpace c = false) →
    ∀ c, (collapseWsL m).getLast? = some c → pyIsSpace c = false := by
  induction m with
  | nil => intro _ c hc; simp [collapseWsL] at hc
  | cons a t ih =>
    intro h c hc
    cases t with
    | nil =>
      have ha := h a rfl
      simp [collapseWsL, ha] at hc
      rw [← hc]
      exact ha
    | cons b t2 =>
      have htail : ∀ c, (b :: t2).getLast? = some c → pyIsSpace c = false := by
        intro x hx
        exact h x (by rw [List.getLast?_cons_cons]; exact hx)
      have hrec := ih htail
      have hne := collapseWsL_cons_ne_nil t2 b
      by_cases ha : pyIsSpace a = true
      · by_cases hb : pyIsSpace b = true
        · rw [show collapseWsL (a :: b :: t2) = collapseWsL (b :: t2) by
            simp [collapseWsL, ha, hb]] at hc
          exact hrec c hc
        · rw [show collapseWsL (a :: b :: t2) = ' ' :: collapseWsL (b :: t2) by
            simp [collapseWsL, ha, hb]] at hc
          cases hcol : collapseWsL (b :: t2) with
          | nil => exact absurd hcol hne
          | cons hd tl =>
            rw [hcol, List.getLast?_cons_cons] at hc
            exact hrec c (by rw [hcol]; exact hc)
      · rw [show collapseWsL (a :: b :: t2) = a :: collapseWsL (b :: t2) by
          simp [collapseWsL, ha]] at hc
        cases hcol : collapseWsL (b :: t2) with
        | nil => exact absurd hcol hne
        | cons hd tl =>
          rw [hcol, List.getLast?_cons_cons] at hc
          exact hrec c (by rw [hcol]; exact hc)

/-- `sanitize` output does not end with whitespace. -/
theorem sanitize_last_not_space (l : List Char) :
    ∀ c, (collapseWsL (replaceReserved (stripL l))).getLast? = some c →
      pyIsSpace c = false := by
  apply collapseWsL_last_not_space
  intro c hc
  unfold replaceReserved at hc
  rw [List.getLast?_map] at hc
  cases hs : (stripL l).getLast? with
  | none => rw [hs] at hc; cases hc
  | some a =>
    rw [hs] at hc
    injection hc with hc
    have ha := stripL_last_not_space l a hs
    rw [← hc, pyIsSpace_repl]
    exact ha

theorem stripL_fixed (m : List Char)
    (h1 : ∀ c, m.head? = some c → pyIsSpace c = false)
    (h2 : ∀ c, m.getLast? = some c → pyIsSpace c = false) :
    stripL m = m := by
  unfold stripL
  cases m with
  | nil => rfl
  | cons a t =>
    have ha := h1 a rfl
    rw [List.dropWhile_cons, if_neg (by simp [ha])]
    cases hrev : (a :: t).reverse with
    | nil => simp at hrev
    | cons b rt =>
      have hb : pyIsSpace b = false := by
        apply h2
        rw [← List.head?_reverse, hrev]
        rfl
      rw [List.dropWhile_cons, if_neg (by simp [hb])]
      have hrr := congrArg List.reverse hrev
      rw [List.reverse_reverse] at hrr
      exact hrr.symm

/-! ## Claim C8 -/

/-- **C8.** `season_from_episode` always returns exactly two (ASCII) digits,
with `"00"` for empty or unrecognized codes, and takes the claimed values on
`"S01E03"`, `"s9e1"`, `"weird"` and `""`. -/
theorem c8_season_two_digits :
    (∀ s : String, (season_from_episode s).data.length = 2 ∧
      ∀ c ∈ (season_from_episode s).data, isDig c = true) ∧
    season_from_episode "S01E03" = "01" ∧
    season_from_episode "s9e1" = "09" ∧
    season_from_episode "weird" = "00" ∧
    season_from_episode "" = "00" := by
  refine ⟨?_, by decide, by decide, by decide, by decide⟩
  intro s
  unfold season_from_episode
  split
  · decide
  · cases hf : fullMatchL (stripL s.data) with
    | some n =>
      simp only [hf]
      exact pad2_ok n (by have := fullMatchL_le _ _ hf; omega)
    | none =>
      simp only [hf]
      cases hs : searchSL s.data with
      | some n =>
        simp only [hs]
        exact pad2_ok n (by have := searchSL_le _ _ hs; omega)
      | none => simp only [hs]; decide

/-! ## Claim C9 -/

/-- **C9.** `sanitize_filename` is total (a plain function) and idempotent,
and takes the claimed values on `'A:B/C'` and `"a   b"`. -/
theorem c9_sanitize_idempotent :
    (∀ s : String, sanitize_filename (sanitize_filename s) = sanitize_filename s) ∧
    sanitize_filename "A:B/C" = "A_B_C" ∧
    sanitize_filename "a   b" = "a b" := by
  refine ⟨?_, by decide, by decide⟩
  intro s
  unfold sanitize_filename
  have hdata : (String.mk (collapseWsL (replaceReserved (stripL s.data)))).data
      = collapseWsL (replaceReserved (stripL s.data)) := rfl
  rw [hdata]
  rw [stripL_fixed _ (sanitize_head_not_space s.data) (sanitize_last_not_space s.data)]
  rw [replaceReserved_fixed _ (sanitize_no_reserved s.data)]
  rw [collapseWsL_fixed _ (collapseWsL_space_is_blank _) (collapseWsL_chain _)]

/-! ## Helper lemmas: the per-row hypotheses survive one processed row -/

theorem fsGet_cons (k : String × String) (e : Entry) (fs : FSys) (d n : String) :
    fsGet ((k, e) :: fs) d n = if k = (d, n) then some e else fsGet fs d n := rfl

theorem rowGoodB_insert (cfg : Config) (fs : FSys) (r' : Row) (sd : String)
    (e : Entry) :
    rowGoodB cfg (((cfg.baseOutPath, sd), e) :: fs) r' = rowGoodB cfg fs r' := by
  unfold rowGoodB
  have hd := rowDir_ne_baseOutPath cfg r'
  rw [find_existing_file_insert_ne fs cfg.baseOutPath sd e _ _ hd]
  cases find_existing_file fs (rowDir cfg r') (rowFname r') with
  | none => rfl
  | some p => simp only [sizeRead_insert_ne fs cfg.baseOutPath sd e _ p hd]

theorem mkdirSafeB_insert_fresh (cfg : Config) (fs : FSys) (r' : Row) (sd : String)
    (h : mkdirSafeB cfg fs r' = true) :
    mkdirSafeB cfg (((cfg.baseOutPath, sd), freshDir) :: fs) r' = true := by
  unfold mkdirSafeB
  rw [fsGet_cons]
  by_cases hk : (cfg.baseOutPath, sd) = (cfg.baseOutPath, rowSeasonDirName r')
  · rw [if_pos hk]
    decide
  · rw [if_neg hk]
    exact h

theorem mkdirSafeB_remove (cfg : Config) (fs : FSys) (r' : Row) (d n : String)
    (h : mkdirSafeB cfg fs r' = true) :
    mkdirSafeB cfg (fsRemove fs d n) r' = true := by
  unfold mkdirSafeB
  by_cases hk : (cfg.baseOutPath, rowSeasonDirName r') = (d, n)
  · have h1 : fsGet (fsRemove fs d n) cfg.baseOutPath (rowSeasonDirName r') = none := by
      have h2 := fsGet_remove_self fs d n
      cases hk
      exact h2
    rw [h1]
  · rw [fsGet_remove_other fs d n _ _ hk]
    exact h

theorem rowGoodB_spec (cfg : Config) (fs : FSys) (r : Row)
    (h : rowGoodB cfg fs r = true) :
    ∃ p n, find_existing_file fs (rowDir cfg r) (rowFname r) = some p ∧
      sizeRead fs (rowDir cfg r) p = some n ∧ REDOWNLOAD_SIZE_BYTES ≤ n := by
  unfold rowGoodB at h
  cases hf : find_existing_file fs (rowDir cfg r) (rowFname r) with
  | none => simp only [hf] at h; simp at h
  | some p =>
    simp only [hf] at h
    cases hs : sizeRead fs (rowDir cfg r) p with
    | none => simp only [hs] at h; simp at h
    | some n =>
      simp only [hs] at h
      exact ⟨p, n, rfl, hs, of_decide_eq_true h⟩

/-- A row whose artifact is present, with readable size at or above the
threshold, is skipped: no deletion event, no fetch event, `Skip` outcome. -/
theorem processRow_skip_of_good (cfg : Config) (fs : FSys) (r : Row)
    (hs : mkdirSafeB cfg fs r = true) (hg : rowGoodB cfg fs r = true) :
    ∃ fs1 p, processRow cfg fs r = .ok (fs1, ⟨r.ep, r.title, .skip p, false⟩,
        [Ev.mkdirSeason cfg.baseOutPath (rowSeasonDirName r), Ev.skipMsg p]) ∧
      (fs1 = fs ∨ fs1 = ((cfg.baseOutPath, rowSeasonDirName r), freshDir) :: fs) := by
  obtain ⟨p, n, hf, hsz, hle⟩ := rowGoodB_spec cfg fs r hg
  obtain ⟨fs1, hrun, hneeds, _, hstruct⟩ := processRow_of_safe cfg fs r hs
  have hn : needs_redownload fs1 (rowDir cfg r) (rowFname r) = (false, some p) := by
    rw [hneeds]
    exact needs_redownload_skip fs _ _ p n hf hsz hle
  refine ⟨fs1, p, ?_, hstruct⟩
  rw [hrun]
  unfold processRowLoop
  rw [hn]
  rfl

/-! ## Claim C2 -/

/-- **C2.** Idempotent re-run: over a catalog whose rows each already have a
located artifact with readable size at or above the threshold (and whose
season-directory slots are free or healthy directories), the orchestrator
performs no deletion and no fetch invocation — every row yields a `Skip`
result with `unlinkTried = false`, and the whole event trace consists of
season `mkdir`s and skip messages only. -/
theorem c2_second_run_all_skip (cfg : Config) (rows : List Row) : ∀ fs : FSys,
    (∀ r ∈ rows, mkdirSafeB cfg fs r = true) →
    (∀ r ∈ rows, rowGoodB cfg fs r = true) →
    ∃ fs' results evs, processRows cfg fs rows = .ok (fs', results, evs) ∧
      results.length = rows.length ∧
      (∀ res ∈ results, (∃ nm, res.outcome = .skip nm) ∧ res.unlinkTried = false) ∧
      (∀ ev ∈ evs, (∃ b sd, ev = .mkdirSeason b sd) ∨ ∃ nm, ev = .skipMsg nm) := by
  induction rows with
  | nil =>
    intro fs _ _
    exact ⟨fs, [], [], rfl, rfl, by simp, by simp⟩
  | cons r rest ih =>
    intro fs hsafe hgood
    obtain ⟨fs1, p, hrun, hstruct⟩ := processRow_skip_of_good cfg fs r
      (hsafe r (List.mem_cons_self r rest)) (hgood r (List.mem_cons_self r rest))
    have hsafe1 : ∀ r' ∈ rest, mkdirSafeB cfg fs1 r' = true := by
      intro r' hr'
      rcases hstruct with h | h
      · rw [h]; exact hsafe r' (List.mem_cons_of_mem r hr')
      · rw [h]
        exact mkdirSafeB_insert_fresh cfg fs r' _ (hsafe r' (List.mem_cons_of_mem r hr'))
    have hgood1 : ∀ r' ∈ rest, rowGoodB cfg fs1 r' = true := by
      intro r' hr'
      rcases hstruct with h | h
      · rw [h]; exact hgood r' (List.mem_cons_of_mem r hr')
      · rw [h, rowGoodB_insert]
        exact hgood r' (List.mem_cons_of_mem r hr')
    obtain ⟨fs', results, evs, hrest, hlen, hres, hevs⟩ := ih fs1 hsafe1 hgood1
    refine ⟨fs', ⟨r.ep, r.title, .skip p, false⟩ :: results,
      [Ev.mkdirSeason cfg.baseOutPath (rowSeasonDirName r), Ev.skipMsg p] ++ evs,
      ?_, ?_, ?_, ?_⟩
    · simp only [processRows, hrun, hrest]
    · simp [hlen]
    · intro res hres2
      rcases List.mem_cons.mp hres2 with h | h
      · rw [h]; exact ⟨⟨p, rfl⟩, rfl⟩
      · exact hres res h
    · intro ev hev
      rcases List.mem_append.mp hev with h | h
      · rcases List.mem_cons.mp h with h2 | h2
        · left; exact ⟨cfg.baseOutPath, rowSeasonDirName r, h2⟩
        · right
          rcases List.mem_cons.mp h2 with h3 | h3
          · exact ⟨p, h3⟩
          · simp at h3
      · exact hevs ev h

/-- Witness for C2 at a concrete input: a one-row catalog whose 20 MB
artifact is already on disk yields a pure-skip run. -/
theorem c2_second_run_all_skip_witness :
    ∃ fs' results evs, processRows cfgW fsBigW [rowW] = .ok (fs', results, evs) ∧
      results.length = [rowW].length ∧
      (∀ res ∈ results, (∃ nm, res.outcome = .skip nm) ∧ res.unlinkTried = false) ∧
      (∀ ev ∈ evs, (∃ b sd, ev = .mkdirSeason b sd) ∨ ∃ nm, ev = .skipMsg nm) :=
  c2_second_run_all_skip cfgW [rowW] fsBigW (by decide) (by decide)

/-! ## Helper lemmas for C7: every row is processed and reported -/

theorem deleteStep_fs (cfg : Config) (fs1 : FSys) (sdir : String)
    (exOpt : Option String) (fs2 : FSys) (evs2 : List Ev) (tried : Bool)
    (h : deleteStep cfg fs1 sdir exOpt = (fs2, evs2, tried)) :
    fs2 = fs1 ∨ ∃ nm, fs2 = fsRemove fs1 sdir nm := by
  cases exOpt with
  | none =>
    simp only [deleteStep] at h
    cases h
    exact Or.inl rfl
  | some nm =>
    simp only [deleteStep] at h
    by_cases hp : preDeleteExists fs1 sdir nm = true
    · rw [if_pos hp] at h
      by_cases hu : cfg.unlinkOk sdir nm = true
      · rw [if_pos hu] at h
        cases h
        exact Or.inr ⟨nm, rfl⟩
      · rw [if_neg hu] at h
        cases h
        exact Or.inl rfl
    · rw [if_neg hp] at h
      cases h
      exact Or.inl rfl

/-- With a safe season `mkdir`, a row always processes without crashing: its
result carries the row's episode and title, a caught fetch failure is
reported (the `fetchErr` event with episode, title and message is in the
row's trace), and season-`mkdir` safety of every other row is preserved
(given that the fetch collaborator preserves it). -/
theorem processRow_ok (cfg : Config) (fs : FSys) (r : Row)
    (hs : mkdirSafeB cfg fs r = true)
    (hpres : ∀ u o fm fs0 r', mkdirSafeB cfg fs0 r' = true →
      mkdirSafeB cfg (cfg.fetchEffect u o fm fs0) r' = true) :
    ∃ fs' res evs, processRow cfg fs r = .ok (fs', res, evs) ∧
      res.ep = r.ep ∧ res.title = r.title ∧
      (∀ m, res.outcome = .fetchFail m → Ev.fetchErr r.ep r.title m ∈ evs) ∧
      (∀ r', mkdirSafeB cfg fs r' = true → mkdirSafeB cfg fs' r' = true) := by
  obtain ⟨fs1, hrun, _, _, hstruct⟩ := processRow_of_safe cfg fs r hs
  have hsafe1 : ∀ r', mkdirSafeB cfg fs r' = true → mkdirSafeB cfg fs1 r' = true := by
    intro r' h
    rcases hstruct with h1 | h1
    · rw [h1]; exact h
    · rw [h1]; exact mkdirSafeB_insert_fresh cfg fs r' _ h
  rw [hrun]
  unfold processRowLoop
  cases hn : needs_redownload fs1 (rowDir cfg r) (rowFname r) with
  | mk redown exOpt =>
    cases redown
    · refine ⟨fs1, _, _, rfl, rfl, rfl, ?_, hsafe1⟩
      intro m hm
      cases hm
    · dsimp only
      obtain ⟨⟨fs2, evs2, tried⟩, hdel⟩ :
          ∃ t, deleteStep cfg fs1 (rowDir cfg r) exOpt = t := ⟨_, rfl⟩
      rw [hdel]
      have hsafe2 : ∀ r', mkdirSafeB cfg fs r' = true →
          mkdirSafeB cfg fs2 r' = true := by
        intro r' h
        rcases deleteStep_fs cfg fs1 (rowDir cfg r) exOpt fs2 evs2 tried hdel
          with h2 | ⟨nm, h2⟩
        · rw [h2]; exact hsafe1 r' h
        · rw [h2]; exact mkdirSafeB_remove cfg fs1 r' _ _ (hsafe1 r' h)
      cases hf : cfg.fetchResult r.url (rowOuttmpl cfg r) cfg.fmt with
      | ok u =>
        refine ⟨_, _, _, rfl, rfl, rfl, ?_, ?_⟩
        · intro m hm
          cases hm
        · intro r' h
          exact hpres _ _ _ _ r' (hsafe2 r' h)
      | error m0 =>
        refine ⟨_, _, _, rfl, rfl, rfl, ?_, ?_⟩
        · intro m hm
          injection hm with hm
          rw [← hm]
          simp
        · intro r' h
          exact hpres _ _ _ _ r' (hsafe2 r' h)

theorem processRows_ok (cfg : Config)
    (hpres : ∀ u o fm fs0 r', mkdirSafeB cfg fs0 r' = true →
      mkdirSafeB cfg (cfg.fetchEffect u o fm fs0) r' = true) :
    ∀ (rows : List Row) (fs : FSys),
    (∀ r ∈ rows, mkdirSafeB cfg fs r = true) →
    ∃ fs' results evs, processRows cfg fs rows = .ok (fs', results, evs) ∧
      results.map (fun res => (res.ep, res.title)) = rows.map (fun r => (r.ep, r.title)) ∧
      ∀ res ∈ results, ∀ m, res.outcome = .fetchFail m →
        Ev.fetchErr res.ep res.title m ∈ evs := by
  intro rows
  induction rows with
  | nil =>
    intro fs _
    exact ⟨fs, [], [], rfl, rfl, by simp⟩
  | cons r rest ih =>
    intro fs hsafe
    obtain ⟨fs1, res, evs1, hrun, hep, htitle, herr, hkeep⟩ :=
      processRow_ok cfg fs r (hsafe r (List.mem_cons_self r rest)) hpres
    obtain ⟨fs', results, evs, hrest, hmap, herrs⟩ :=
      ih fs1 (fun r' hr' => hkeep r' (hsafe r' (List.mem_cons_of_mem r hr')))
    refine ⟨fs', res :: results, evs1 ++ evs, ?_, ?_, ?_⟩
    · simp only [processRows, hrun, hrest]
    · simp [hep, htitle, hmap]
    · intro res2 hres2 m hm
      rcases List.mem_cons.mp hres2 with h | h
      · subst h
        rw [hep, htitle]
        exact List.mem_append.mpr (Or.inl (herr m hm))
      · exact List.mem_append.mpr (Or.inr (herrs res2 h m hm))

theorem baseOutPath_ne_baseParent (cfg : Config) :
    cfg.baseOutPath ≠ cfg.baseParent := by
  intro he
  have h : cfg.baseOutPath = cfg.baseParent ++ ("/" ++ cfg.baseName) := by
    simp [Config.baseOutPath, String.append_assoc]
  rw [h] at he
  have hlen : 0 < ("/" ++ cfg.baseName).length := by
    rw [String.length_append]
    have h1 : "/".length = 1 := rfl
    omega
  exact self_ne_append _ _ hlen he.symm

theorem mkdirSafeB_insert_baseParent (cfg : Config) (fs : FSys) (r' : Row)
    (e : Entry) :
    mkdirSafeB cfg (((cfg.baseParent, cfg.baseName), e) :: fs) r'
      = mkdirSafeB cfg fs r' := by
  unfold mkdirSafeB
  rw [fsGet_insert_ne fs cfg.baseParent cfg.baseName e _ _ (baseOutPath_ne_baseParent cfg)]

/-! ## Claim C7 -/

/-- **C7.** For every nonempty sequence of catalog rows (with well-formed
directory slots), `main` completes with exit code 0: every row is processed,
in catalog order (the results line up one-to-one with the rows, episode and
title included), and a fetch exception on any row is caught and reported via
an error print carrying the episode code, title and message. -/
theorem c7_row_failures_nonfatal (cfg : Config) (rows : List Row) (fs : FSys)
    (hrows : rows ≠ [])
    (hbase : baseMkdirSafeB cfg fs = true)
    (hsafe : ∀ r ∈ rows, mkdirSafeB cfg fs r = true)
    (hpres : ∀ u o fm fs0 r', mkdirSafeB cfg fs0 r' = true →
      mkdirSafeB cfg (cfg.fetchEffect u o fm fs0) r' = true) :
    ∃ fs' results evs, mainModel cfg true rows fs =
        .ok (0, fs', results, Ev.mkdirBase cfg.baseOutPath :: evs) ∧
      results.map (fun res => (res.ep, res.title)) = rows.map (fun r => (r.ep, r.title)) ∧
      ∀ res ∈ results, ∀ m, res.outcome = .fetchFail m →
        Ev.fetchErr res.ep res.title m ∈ evs := by
  have hrowsE : rows.isEmpty = false := by
    cases rows with
    | nil => exact absurd rfl hrows
    | cons a t => rfl
  have hm := mkdirP_of_safe fs cfg.baseParent cfg.baseName hbase
  unfold mainModel
  rcases hm with hm | hm
  · obtain ⟨fs', results, evs, hrest, hmap, herrs⟩ := processRows_ok cfg hpres rows fs hsafe
    refine ⟨fs', results, evs, ?_, hmap, herrs⟩
    simp only [hm, hrowsE, hrest]
    rfl
  · have hsafe1 : ∀ r ∈ rows, mkdirSafeB cfg
        (((cfg.baseParent, cfg.baseName), freshDir) :: fs) r = true := by
      intro r hr
      rw [mkdirSafeB_insert_baseParent]
      exact hsafe r hr
    obtain ⟨fs', results, evs, hrest, hmap, herrs⟩ :=
      processRows_ok cfg hpres rows _ hsafe1
    refine ⟨fs', results, evs, ?_, hmap, herrs⟩
    simp only [hm, hrowsE, hrest]
    rfl

/-- Witness for C7 at a concrete input: a one-row catalog whose fetch raises
`"boom"` still finishes with exit code 0 and reports the failure. -/
theorem c7_row_failures_nonfatal_witness :
    ∃ fs' results evs, mainModel cfgW true [rowBad] [] =
        .ok (0, fs', results, Ev.mkdirBase cfgW.baseOutPath :: evs) ∧
      results.map (fun res => (res.ep, res.title))
        = [rowBad].map (fun r => (r.ep, r.title)) ∧
      ∀ res ∈ results, ∀ m, res.outcome = .fetchFail m →
        Ev.fetchErr res.ep res.title m ∈ evs :=
  c7_row_failures_nonfatal cfgW [rowBad] [] (by decide) (by decide) (by decide)
    (fun u o fm fs0 r' h => h)

/-! ## Claim C10 -/

/-- **C10.** When the catalog exists but yields zero usable rows, `main`
exits with code 2 — and only after `base_out.mkdir(...)` has run: the trace
contains the base-directory creation, and the resulting filesystem holds a
directory entry for the base output directory. -/
theorem c10_exit2_after_base_mkdir (cfg : Config) (fs : FSys)
    (hbase : baseMkdirSafeB cfg fs = true) :
    ∃ fs', mainModel cfg true [] fs
        = .ok (2, fs', [], [Ev.mkdirBase cfg.baseOutPath]) ∧
      ∃ e, fsGet fs' cfg.baseParent cfg.baseName = some e ∧ e.isDir = true := by
  unfold mainModel
  cases hg : fsGet fs cfg.baseParent cfg.baseName with
  | some e =>
    have h : (e.isDir && e.statLoc.isSome) = true := by
      unfold baseMkdirSafeB at hbase
      simp only [hg] at hbase
      exact hbase
    have hmk : mkdirP fs cfg.baseParent cfg.baseName = .ok fs := by
      unfold mkdirP
      simp only [hg]
      rw [if_pos h]
    refine ⟨fs, ?_, e, hg, ?_⟩
    · simp only [hmk]
      rfl
    · rw [Bool.and_eq_true] at h
      exact h.1
  | none =>
    have hmk : mkdirP fs cfg.baseParent cfg.baseName
        = .ok (((cfg.baseParent, cfg.baseName), freshDir) :: fs) := by
      unfold mkdirP
      simp only [hg]
    refine ⟨((cfg.baseParent, cfg.baseName), freshDir) :: fs, ?_, freshDir, ?_, rfl⟩
    · simp only [hmk]
      rfl
    · rw [fsGet_cons, if_pos rfl]

/-- Witness for C10 at a concrete input: an empty catalog against an empty
filesystem exits 2 with the base directory created. -/
theorem c10_exit2_after_base_mkdir_witness :
    ∃ fs', mainModel cfgW true [] []
        = .ok (2, fs', [], [Ev.mkdirBase cfgW.baseOutPath]) ∧
      ∃ e, fsGet fs' cfgW.baseParent cfgW.baseName = some e ∧ e.isDir = true :=
  c10_exit2_after_base_mkdir cfgW [] (by decide)

end YtDl
